import Mathlib

/-!
# Verification of the powermux HTTP multiplexer routing engine

A shallow embedding of the powermux routing engine (route tree, registration,
lookup, handler selection, middleware chain) translated from the Go source in
`route.go`, `servemux.go`, `handlers.go`, `middleware.go`, together with
theorems settling the specification claims.

Modelling notes:
* Go strings are modelled by Lean `String`/`List Char`; the byte-wise
  lexicographic order Go uses on strings coincides with code-point
  lexicographic order because UTF-8 preserves code-point order.
* Pointer-identified tree nodes are modelled by giving every node a numeric
  `id` drawn from a counter threaded through the registration functions.
  "Same node" in the Go sense is "same id"; node mutation through a held
  pointer is modelled by applying an update function at the target node
  during registration (faithful for the `mux.Route(p).Get(h)` call shape
  used by the library API).
* Go `panic` and nil-handler dereference are modelled by `Option`, `none`
  meaning the Go code panics.
* The `sync.Pool` of execution records always hands out zeroed records
  (`executionPool.Put` zeroes them), so `execute` is modelled as building a
  fresh zeroed record.
* Requests are modelled by method, URL host, and a single URL path string:
  the scope is URLs whose `Path` equals its escaped form and whose query is
  empty (`RawPath` empty, no characters needing escaping outside of the
  matching itself, `RawQuery` empty), which is the regime the spec describes
  ("the raw escaped path from the request URL is used verbatim").
-/

namespace Powermux

/-! ## String utilities (byte-level Go string operations) -/

/-- Lexicographic strict order on char lists, the model of Go's `<` on
strings (byte-wise; UTF-8 order agrees with code-point order). -/
def charListLt : List Char → List Char → Bool
  | [], [] => false
  | [], _ :: _ => true
  | _ :: _, [] => false
  | a :: as, b :: bs =>
    if a < b then true
    else if b < a then false
    else charListLt as bs

/-- Go `a < b` on strings. -/
def strLtB (a b : String) : Bool := charListLt a.data b.data

theorem charListLt_irrefl (l : List Char) : charListLt l l = false := by
  induction l with
  | nil => rfl
  | cons a as ih => simp [charListLt, ih]

theorem charListLt_trans {a b c : List Char} (hab : charListLt a b = true)
    (hbc : charListLt b c = true) : charListLt a c = true := by
  induction a generalizing b c with
  | nil =>
    cases b with
    | nil => simp [charListLt] at hab
    | cons y bs =>
      cases c with
      | nil => simp [charListLt] at hbc
      | cons z cs => simp [charListLt]
  | cons x as ih =>
    cases b with
    | nil => simp [charListLt] at hab
    | cons y bs =>
      cases c with
      | nil => simp [charListLt] at hbc
      | cons z cs =>
        simp only [charListLt] at hab hbc ⊢
        by_cases hxy : x < y
        · by_cases hyz : y < z
          · have hxz : x < z := lt_trans hxy hyz
            simp [hxz]
          · simp only [if_neg hyz] at hbc
            by_cases hzy : z < y
            · simp [hzy] at hbc
            · have hyz' : y = z := le_antisymm (le_of_not_lt hzy) (le_of_not_lt hyz)
              have hxz : x < z := hyz' ▸ hxy
              simp [hxz]
        · simp only [if_neg hxy] at hab
          by_cases hyx : y < x
          · simp [hyx] at hab
          · have hxy' : x = y := le_antisymm (le_of_not_lt hyx) (le_of_not_lt hxy)
            simp only [if_neg hyx] at hab
            by_cases hyz : y < z
            · have hxz : x < z := hxy' ▸ hyz
              simp [hxz]
            · simp only [if_neg hyz] at hbc
              by_cases hzy : z < y
              · simp [hzy] at hbc
              · have hyz' : y = z := le_antisymm (le_of_not_lt hzy) (le_of_not_lt hyz)
                have hxz : ¬ x < z := by rw [← hyz', ← hxy']; exact lt_irrefl x
                have hzx : ¬ z < x := by rw [← hyz', ← hxy']; exact lt_irrefl x
                simp only [if_neg hxz, if_neg hzx]
                simp only [if_neg hzy] at hbc
                exact ih hab hbc

theorem charListLt_antisymm {a b : List Char} (hab : charListLt a b = false)
    (hba : charListLt b a = false) : a = b := by
  induction a generalizing b with
  | nil =>
    cases b with
    | nil => rfl
    | cons y bs => simp [charListLt] at hab
  | cons x as ih =>
    cases b with
    | nil => simp [charListLt] at hba
    | cons y bs =>
      simp only [charListLt] at hab hba
      by_cases hxy : x < y
      · simp [hxy] at hab
      · by_cases hyx : y < x
        · simp [hyx, hxy] at hba
        · have hx : x = y := le_antisymm (le_of_not_lt hyx) (le_of_not_lt hxy)
          simp only [if_neg hxy, if_neg hyx] at hab hba
          rw [hx, ih hab hba]

theorem strLtB_irrefl (s : String) : strLtB s s = false := charListLt_irrefl s.data

theorem strLtB_trans {a b c : String} (hab : strLtB a b = true)
    (hbc : strLtB b c = true) : strLtB a c = true := charListLt_trans hab hbc

theorem strLtB_antisymm {a b : String} (hab : strLtB a b = false)
    (hba : strLtB b a = false) : a = b := by
  have h := charListLt_antisymm hab hba
  cases a; cases b; exact congrArg String.mk h

/-- Model of Go `strings.Split(s, "/")`. -/
def splitSlashGo : List Char → List Char → List String
  | [], cur => [String.mk cur.reverse]
  | '/' :: rest, cur => String.mk cur.reverse :: splitSlashGo rest []
  | c :: rest, cur => splitSlashGo rest (c :: cur)

def splitSlash (s : String) : List String := splitSlashGo s.data []

/-- Model of Go `strings.TrimRight(s, "/")`. -/
def trimRightSlashes (s : String) : String :=
  String.mk ((s.data.reverse.dropWhile (fun c => c = '/')).reverse)

/-- Model of Go `strings.HasSuffix(s, "/")`. -/
def endsWithSlash (s : String) : Bool :=
  match s.data.reverse with
  | [] => false
  | c :: _ => c = '/'

def startsWithSlash (s : String) : Bool :=
  match s.data with
  | [] => false
  | c :: _ => c = '/'

/-- Model of Go `strings.HasPrefix(s, ":")`. -/
def startsWithColon (s : String) : Bool :=
  match s.data with
  | [] => false
  | c :: _ => c = ':'

/-- Model of Go `strings.TrimLeft(s, ":")`. -/
def trimLeftColons (s : String) : String :=
  String.mk (s.data.dropWhile (fun c => c = ':'))

/-! ## Percent-decoding: model of Go `net/url.PathUnescape`.

Translated from Go's `net/url` `unescape(s, encodePathSegment)`: every `%`
must be followed by two hex digits, otherwise the function returns the pair
`("", error)`; on success each `%xy` becomes the byte `0x xy` and all other
bytes (including `+`, which is only special in query mode) pass through. -/

def isHexDigit (c : Char) : Bool :=
  ('0' ≤ c ∧ c ≤ '9') ∨ ('a' ≤ c ∧ c ≤ 'f') ∨ ('A' ≤ c ∧ c ≤ 'F')

def unhex (c : Char) : Nat :=
  if '0' ≤ c ∧ c ≤ '9' then c.toNat - '0'.toNat
  else if 'a' ≤ c ∧ c ≤ 'f' then c.toNat - 'a'.toNat + 10
  else if 'A' ≤ c ∧ c ≤ 'F' then c.toNat - 'A'.toNat + 10
  else 0

def pathUnescapeCore : List Char → Option (List Char)
  | [] => some []
  | '%' :: c1 :: c2 :: rest =>
    if isHexDigit c1 && isHexDigit c2 then
      (pathUnescapeCore rest).map (fun t => Char.ofNat (unhex c1 * 16 + unhex c2) :: t)
    else none
  | '%' :: _ :: [] => none
  | '%' :: [] => none
  | c :: rest => (pathUnescapeCore rest).map (fun t => c :: t)

/-- `none` models the `("", error)` return of Go's `PathUnescape`. -/
def pathUnescape (s : String) : Option String :=
  (pathUnescapeCore s.data).map String.mk

/-! ## Method verbs and verb flags (`route.go`) -/

def methodAny : String := "ANY"
def notFoundKey : String := "NOT_FOUND"
def methodGet : String := "GET"
def methodHead : String := "HEAD"
def methodPost : String := "POST"
def methodPut : String := "PUT"
def methodPatch : String := "PATCH"
def methodDelete : String := "DELETE"
def methodConnect : String := "CONNECT"
def methodOptions : String := "OPTIONS"

/-- `verbFlag` is a `uint8` bitset in Go; modelled as `Nat` masked to 8 bits. -/
abbrev VerbFlag := Nat

def flagGet : VerbFlag := 1
def flagHead : VerbFlag := 2
def flagPost : VerbFlag := 4
def flagPut : VerbFlag := 8
def flagPatch : VerbFlag := 16
def flagDelete : VerbFlag := 32
def flagConnect : VerbFlag := 64
def flagOptions : VerbFlag := 128
/-- `^verbFlag(0)` on a `uint8`. -/
def flagAny : VerbFlag := 255

/-- `verbFlag.Matches`: never match a zero flag, otherwise `f&v == v`. -/
def VerbFlag.Matches (f v : VerbFlag) : Bool :=
  if v = 0 then false else Nat.land f v = v

/-- `getVerbFlag`; `none` models the Go `panic` on an unknown method. -/
def getVerbFlag (verb : String) : Option VerbFlag :=
  if verb = methodGet then some flagGet
  else if verb = methodHead then some flagHead
  else if verb = methodPost then some flagPost
  else if verb = methodPut then some flagPut
  else if verb = methodPatch then some flagPatch
  else if verb = methodDelete then some flagDelete
  else if verb = methodConnect then some flagConnect
  else if verb = methodOptions then some flagOptions
  else none

/-! ## Handlers, middleware, responses

User-supplied `http.Handler` values are opaque to the mux; they are modelled
by a numeric tag. The handlers the library itself constructs
(`http.NotFoundHandler`, `http.RedirectHandler`, `methodNotAllowedHandler`
from `handlers.go`) are modelled explicitly so their observable responses
can be stated. -/

inductive Handler where
  | user (tag : Nat)
  | notFoundDefault
  | redirectH (url : String) (status : Nat)
  | mnah (methods : List String)
  deriving Repr, DecidableEq

/-- The observable outcome of running a handler (or a middleware that does
not call its continuation). -/
inductive Response where
  | fromUser (tag : Nat)
  | fromMiddleware (id : Nat)
  | notFoundResp
  | methodNotAllowedResp (allow : String)
  | redirect (status : Nat) (location : String)
  deriving Repr, DecidableEq

/-- Model of Go `strings.Join(parts, ", ")`. -/
def joinComma : List String → String
  | [] => ""
  | [s] => s
  | s :: rest => s ++ ", " ++ joinComma rest

/-- What each library-constructed handler writes
(`handlers.go` `methodNotAllowedHandler.ServeHTTP`, `http.RedirectHandler`,
`http.NotFoundHandler`); a user handler's response is abstract. -/
def serveHandler : Handler → Response
  | .user t => .fromUser t
  | .notFoundDefault => .notFoundResp
  | .redirectH url status => .redirect status url
  | .mnah methods => .methodNotAllowedResp (joinComma methods)

/-- A middleware (`middleware.go`): behaviourally, when invoked it either
calls its continuation exactly once or writes a response itself.  `id`
identifies it so invocation order can be observed. -/
structure MW where
  id : Nat
  callsNext : Bool
  deriving Repr, DecidableEq

/-- `middlewareVerb` from `route.go`. -/
structure MiddlewareVerb where
  mid : MW
  verb : VerbFlag
  deriving Repr, DecidableEq

/-- Model of `getNextMiddleware` (`middleware.go`): the composed chain run on
a request yields the list of middleware invoked in order and the response;
`none` as the response models the nil-handler panic when the chain bottoms
out with no handler. -/
def runChain : List MW → Option Handler → List Nat × Option Response
  | [], none => ([], none)
  | [], some h => ([], some (serveHandler h))
  | m :: rest, h =>
    if m.callsNext then
      let r := runChain rest h
      (m.id :: r.1, r.2)
    else ([m.id], some (.fromMiddleware m.id))

/-! ## The route tree (`route.go` `Route`) -/

/-- The non-recursive attributes of a `Route` node.  `id` is the model of Go
pointer identity (see module comment). -/
structure RouteData where
  id : Nat
  pattern : String
  fullPath : String
  isParamNode : Bool
  paramName : String
  isWildcardNode : Bool
  middleware : List MiddlewareVerb
  handlers : List (String × Handler)
  deriving Repr, DecidableEq

/-- A `Route` node: data plus literal children (`children`), the parameter
child and the wildcard child. -/
inductive Route where
  | node (data : RouteData) (children : List Route)
      (paramChild : Option Route) (wildcardChild : Option Route)

namespace Route

def data : Route → RouteData
  | .node d _ _ _ => d

def children : Route → List Route
  | .node _ cs _ _ => cs

def paramChild : Route → Option Route
  | .node _ _ pc _ => pc

def wildcardChild : Route → Option Route
  | .node _ _ _ wc => wc

def pattern (r : Route) : String := r.data.pattern
def fullPath (r : Route) : String := r.data.fullPath
def id (r : Route) : Nat := r.data.id
def isParamNode (r : Route) : Bool := r.data.isParamNode
def paramNameOf (r : Route) : String := r.data.paramName
def isWildcardNode (r : Route) : Bool := r.data.isWildcardNode
def middlewareOf (r : Route) : List MiddlewareVerb := r.data.middleware
def handlersOf (r : Route) : List (String × Handler) := r.data.handlers

def setChildren : Route → List Route → Route
  | .node d _ pc wc, cs => .node d cs pc wc

def setParamChild : Route → Option Route → Route
  | .node d cs _ wc, pc => .node d cs pc wc

def setWildcardChild : Route → Option Route → Route
  | .node d cs pc _, wc => .node d cs pc wc

def applyData (f : RouteData → RouteData) : Route → Route
  | .node d cs pc wc => .node (f d) cs pc wc

end Route

/-- Go map read `r.handlers[m]`. -/
def handlersLookup (hs : List (String × Handler)) (m : String) : Option Handler :=
  match hs with
  | [] => none
  | (k, v) :: rest => if k = m then some v else handlersLookup rest m

/-- Go map write `r.handlers[m] = h`. -/
def handlersSet (hs : List (String × Handler)) (m : String) (h : Handler) :
    List (String × Handler) :=
  match hs with
  | [] => [(m, h)]
  | (k, v) :: rest => if k = m then (k, h) :: rest else (k, v) :: handlersSet rest m h

/-- `newRoute()`: empty pattern, empty handler map, no children. -/
def newRouteData (fresh : Nat) : RouteData :=
  { id := fresh, pattern := "", fullPath := "", isParamNode := false,
    paramName := "", isWildcardNode := false, middleware := [], handlers := [] }

def newRoute (fresh : Nat) : Route := .node (newRouteData fresh) [] none none

/-! ## Insertion: `Route.create` / `Route.Route` (`route.go`)

`create` returns the updated tree, the id of the returned (target) node and
the next fresh id; `none` models Go's `nil` return ("not us").  The
configuration call chained onto the returned node pointer
(`mux.Route(p).Get(h)` etc.) is modelled by the `f` update applied to the
target node's data; plain `Route` is `f = id`. -/

/-- The `for _, child := range r.getChildren()` loop: first child whose
`create` returns non-nil, replaced in place. -/
def firstCreate (f : Route → Option (Route × Nat × Nat)) :
    List Route → Option (List Route × Nat × Nat)
  | [] => none
  | x :: xs =>
    match f x with
    | some (x', i, c') => some (x' :: xs, i, c')
    | none =>
      match firstCreate f xs with
      | some (xs', i, c') => some (x :: xs', i, c')
      | none => none

/-- Model of `sort.Sort(r.children)`: sort ascending by pattern. -/
def sortRoutes (l : List Route) : List Route :=
  l.insertionSort (fun a b => strLtB b.pattern a.pattern = false)

/-- The fresh node built by the creation branch of `create` before its
classification flags are set: pattern `q`, full path extended from the
parent. -/
def freshBase (c : Nat) (parentFull q : String) : RouteData :=
  { newRouteData c with pattern := q, fullPath := parentFull ++ "/" ++ q }

def freshParamNode (c : Nat) (parentFull q : String) : Route :=
  .node { freshBase c parentFull q with
    isParamNode := true, paramName := trimLeftColons q } [] none none

def freshWildNode (c : Nat) (parentFull q : String) : Route :=
  .node { freshBase c parentFull q with isWildcardNode := true } [] none none

def freshLitNode (c : Nat) (parentFull q : String) : Route :=
  .node (freshBase c parentFull q) [] none none

/-- Stage 1 of the child loop: the literal children. -/
def tryLit (go : Route → Option (Route × Nat × Nat)) (r : Route) :
    Option (Route × Nat × Nat) :=
  match firstCreate go r.children with
  | some (cs', i, c') => some (r.setChildren cs', i, c')
  | none => none

/-- Stage 2 of the child loop: the parameter child. -/
def tryPar (go : Route → Option (Route × Nat × Nat)) (r : Route) :
    Option (Route × Nat × Nat) :=
  match r.paramChild with
  | some pc =>
    match go pc with
    | some (pc', i, c') => some (r.setParamChild (some pc'), i, c')
    | none => none
  | none => none

/-- Stage 3 of the child loop: the wildcard child. -/
def tryWild (go : Route → Option (Route × Nat × Nat)) (r : Route) :
    Option (Route × Nat × Nat) :=
  match r.wildcardChild with
  | some wc =>
    match go wc with
    | some (wc', i, c') => some (r.setWildcardChild (some wc'), i, c')
    | none => none
  | none => none

def create (f : RouteData → RouteData) : List String → Route → Nat →
    Option (Route × Nat × Nat)
  | [], _, _ => none
  | [p], r, c =>
    -- "if this is us, return, no creation necessary"
    if r.pattern = p then some (r.applyData f, r.id, c) else none
  | p :: q :: rest, r, c =>
    if r.pattern = p then
      -- iterate over getChildren() = children ++ paramChild ++ wildcardChild
      match tryLit (fun child => create f (q :: rest) child c) r with
      | some res => some res
      | none =>
        match tryPar (fun child => create f (q :: rest) child c) r with
        | some res => some res
        | none =>
          match tryWild (fun child => create f (q :: rest) child c) r with
          | some res => some res
          | none =>
            -- "child can't create it, so we will"
            if startsWithColon q then
              match create f (q :: rest) (freshParamNode c r.fullPath q) (c + 1) with
              | some (n', i, c') => some (r.setParamChild (some n'), i, c')
              | none => none
            else if q = "*" then
              -- rooted subtree: save to wildcard child, "go no deeper"
              some (r.setWildcardChild
                (some ((freshWildNode c r.fullPath q).applyData f)), c, c + 1)
            else
              match create f (q :: rest) (freshLitNode c r.fullPath q) (c + 1) with
              | some (n', i, c') =>
                some (r.setChildren (sortRoutes (r.children ++ [n'])), i, c')
              | none => none
    else none

/-- The path normalization done by `Route.Route` before calling `create`:
leading `/` inserted, trailing `/` stripped unless the path is `/`, the
node's own pattern prepended, split on `/`, and the root special case.
`none` models the Go panic of `path[0]` on an empty path. -/
def routeParts (rpattern : String) (path : String) : Option (List String) :=
  match path.data with
  | [] => none
  | c :: _ =>
    let p1 := if c = '/' then path else "/" ++ path
    let p2 := if p1 = "/" then p1 else trimRightSlashes p1
    let p3 := if rpattern = "" then p2 else rpattern ++ p2
    let parts := splitSlash p3
    some (if p3 = "/" then parts.drop 1 else parts)

/-- `Route.Route(path)` with a configuration `f` applied at the target node
(the node-method calls chained onto the returned pointer). -/
def routeOn (f : RouteData → RouteData) (r : Route) (path : String) (c : Nat) :
    Option (Route × Nat × Nat) :=
  (routeParts r.pattern path).bind (fun parts => create f parts r c)

/-- `Route.Get/Post/.../Any/NotFound`: overwrite one handler slot. -/
def setHandlerData (m : String) (h : Handler) (d : RouteData) : RouteData :=
  { d with handlers := handlersSet d.handlers m h }

/-- `Route.Middleware` (mask `flagAny`) and `MiddlewareFor` (given mask). -/
def addMiddlewareData (mw : MW) (v : VerbFlag) (d : RouteData) : RouteData :=
  { d with middleware := d.middleware ++ [⟨mw, v⟩] }

/-! ## Lookup (`route.go` `execute` / `getExecution` / `getHandler`) -/

/-- The transient per-request execution record (`routeExecution`); records
from the pool are always zeroed, so `execute` starts from `emptyExecution`. -/
structure RouteExecution where
  pattern : String
  middleware : List MW
  params : List (String × String)
  notFound : Option Handler
  handler : Option Handler
  deriving Repr, DecidableEq

def emptyExecution : RouteExecution :=
  { pattern := "", middleware := [], params := [], notFound := none, handler := none }

/-- Go map write `ex.params[k] = v`. -/
def paramsSet (ps : List (String × String)) (k v : String) : List (String × String) :=
  match ps with
  | [] => [(k, v)]
  | (k', v') :: rest => if k' = k then (k', v) :: rest else (k', v') :: paramsSet rest k v

/-- Go map read. -/
def paramsLookup (ps : List (String × String)) (k : String) : Option String :=
  match ps with
  | [] => none
  | (k', v') :: rest => if k' = k then some v' else paramsLookup rest k

/-- Model of Go's `sort.Search(n, f)` binary search (smallest index with
`f`, assuming `f` monotone), with explicit fuel equal to the interval
width so the kernel can evaluate it. -/
def sortSearchGo (f : Nat → Bool) : Nat → Nat → Nat → Nat
  | 0, i, _ => i
  | fuel + 1, i, j =>
    if i < j then
      let h := (i + j) / 2
      if f h = false then sortSearchGo f fuel (h + 1) j
      else sortSearchGo f fuel i h
    else i

def sortSearch (n : Nat) (f : Nat → Bool) : Nat := sortSearchGo f n 0 n

/-- `childList.Search`: binary search the sorted literal children for an
exact pattern match. -/
def childSearch (l : List Route) (target : String) : Option Route :=
  let f : Nat → Bool := fun i =>
    match l.get? i with
    | some r => !strLtB r.pattern target
    | none => true
  let idx := sortSearch l.length f
  match l.get? idx with
  | some r => if r.pattern = target then some r else none
  | none => none

/-- The child-descent choice of `getExecution`: binary search over literal
children, then the parameter child, then the wildcard child. -/
def selectChild (r : Route) (seg : String) : Option Route :=
  match childSearch r.children seg with
  | some c => some c
  | none =>
    match r.paramChild with
    | some pc => some pc
    | none => r.wildcardChild

/-- The per-node bookkeeping of the `getExecution` loop body: middleware
whose verb mask matches, the NOT_FOUND fallback, the tentative OPTIONS
handler, and the path parameter (percent-decoded; the error return of
`url.PathUnescape` is discarded, so a failed decode stores `""`). -/
def nodeVisit (method : String) (verb : VerbFlag) (seg : String) (r : Route)
    (ex : RouteExecution) : RouteExecution :=
  let ex := { ex with middleware :=
    ex.middleware ++ ((r.middlewareOf.filter (fun mv => mv.verb.Matches verb)).map (·.mid)) }
  let ex := match handlersLookup r.handlersOf notFoundKey with
    | some h => { ex with notFound := some h }
    | none => ex
  let ex := if method = methodOptions then
      match handlersLookup r.handlersOf methodOptions with
      | some h => { ex with handler := some h }
      | none => ex
    else ex
  if r.isParamNode then
    { ex with params := paramsSet ex.params r.paramNameOf ((pathUnescape seg).getD "") }
  else ex

/-- The method keys of the node's handler map other than `ANY` and
`NOT_FOUND` (the loop body of `Route.methodNotAllowed`). -/
def allowedMethods (r : Route) : List String :=
  (r.handlersOf.map Prod.fst).filter (fun m => !(m == methodAny) && !(m == notFoundKey))

/-- `Route.methodNotAllowed` (`handlers.go`): the synthesized 405 handler,
or `none` ("405 only makes sense if some methods are allowed"). -/
def methodNotAllowed (r : Route) : Option Handler :=
  if 0 < (allowedMethods r).length then some (.mnah (allowedMethods r)) else none

/-- `Route.getHandler`: choose the terminal handler. -/
def getHandler (r : Route) (method : String) (ex : RouteExecution) : RouteExecution :=
  match handlersLookup r.handlersOf method with
  | some h => { ex with handler := some h }
  | none =>
    match (if method = methodHead then handlersLookup r.handlersOf methodGet else none) with
    | some h => { ex with handler := some h }
    | none =>
      match handlersLookup r.handlersOf methodAny with
      | some h => { ex with handler := some h }
      | none =>
        if ex.handler = none then { ex with handler := methodNotAllowed r }
        else ex

/-- The `getExecution` traversal loop, by recursion on the remaining path
parts (each iteration drops one part). -/
def getExecution (method : String) (verb : VerbFlag) :
    List String → Route → RouteExecution → RouteExecution
  | [], _, ex => ex
  | seg :: rest, r, ex =>
    let ex := nodeVisit method verb seg r ex
    if rest.isEmpty || r.isWildcardNode then
      -- bottom of the path: pick a handler, record the matched pattern
      let ex := getHandler r method ex
      { ex with pattern := if r.fullPath = "" then "/" else r.fullPath }
    else
      match rest with
      | [] => ex
      | s :: rest' =>
        match selectChild r s with
        | some child => getExecution method verb (s :: rest') child ex
        | none => ex

/-- The path splitting done by `Route.execute`.  Note the index skip after
each `/` in the Go loop: the character immediately following a `/` is
consumed into the next segment unconditionally (so `"/a//b"` splits into
`["", "a", "/b"]`).  `none` models the out-of-range slice panic on an
empty pattern. -/
def execSplitCore : List Char → List Char → List String
  | [], cur => [String.mk cur.reverse]
  | '/' :: [], cur => [String.mk cur.reverse, ""]
  | '/' :: c :: rest, cur => String.mk cur.reverse :: execSplitCore rest [c]
  | c :: rest, cur => execSplitCore rest (c :: cur)

def execSplit (pattern : String) : Option (List String) :=
  match pattern.data with
  | [] => none
  | _ :: rest => some (if pattern = "/" then [""] else "" :: execSplitCore rest [])

/-- `Route.execute`: split the request path and run the traversal on a
zeroed execution record. -/
def execute (r : Route) (method pattern : String) : Option RouteExecution :=
  (execSplit pattern).bind (fun parts =>
    (getVerbFlag method).map (fun verb =>
      getExecution method verb parts r emptyExecution))

/-! ## The multiplexer facade (`servemux.go`) -/

/-- `ServeMux`: default tree, host-keyed trees, plus the model's fresh-id
counter. -/
structure ServeMuxM where
  baseRoute : Route
  hostRoutes : List (String × Route)
  counter : Nat

def hostLookup (hs : List (String × Route)) (k : String) : Option Route :=
  match hs with
  | [] => none
  | (k', v) :: rest => if k' = k then some v else hostLookup rest k

def hostSet (hs : List (String × Route)) (k : String) (v : Route) :
    List (String × Route) :=
  match hs with
  | [] => [(k, v)]
  | (k', v') :: rest => if k' = k then (k', v) :: rest else (k', v') :: hostSet rest k v

/-- `NewServeMux()`: fresh root plus `s.NotFound(http.NotFoundHandler())`. -/
def newServeMux : ServeMuxM :=
  { baseRoute := (newRoute 0).applyData (setHandlerData notFoundKey .notFoundDefault),
    hostRoutes := [], counter := 1 }

/-- A request as the mux consumes it: method, `req.URL.Host`, and the URL
path (see the module comment for the path-model scope). -/
structure Request where
  method : String
  host : String
  path : String

/-- `ServeMux.Route(path)` followed by a node-configuration call `f` on the
returned node. -/
def muxRouteApply (s : ServeMuxM) (path : String) (f : RouteData → RouteData) :
    Option ServeMuxM :=
  (routeOn f s.baseRoute path s.counter).map (fun x =>
    { s with baseRoute := x.1, counter := x.2.2 })

/-- `ServeMux.RouteHost(host, path)` followed by a node-configuration call:
the tree for `host` is created on demand (note: `newRoute()`, so host trees
have no default NOT_FOUND handler). -/
def muxRouteHostApply (s : ServeMuxM) (host path : String)
    (f : RouteData → RouteData) : Option ServeMuxM :=
  match hostLookup s.hostRoutes host with
  | some r =>
    (routeOn f r path s.counter).map (fun x =>
      { s with hostRoutes := hostSet s.hostRoutes host x.1, counter := x.2.2 })
  | none =>
    let r := newRoute s.counter
    (routeOn f r path (s.counter + 1)).map (fun x =>
      { s with hostRoutes := hostSet s.hostRoutes host x.1, counter := x.2.2 })

/-- `ServeMux.Handle(path, handler)` = `s.Route(path).Any(handler)`. -/
def muxHandle (s : ServeMuxM) (path : String) (h : Handler) : Option ServeMuxM :=
  muxRouteApply s path (setHandlerData methodAny h)

/-- `ServeMux.HandleHost(host, path, handler)`.  The Go body is
`s.RouteHost(path, host).Any(handler)` — it passes `path` as the host key
and `host` as the pattern (`RouteHost`'s signature is `(host, path)`), and
this model reproduces that argument order exactly. -/
def muxHandleHost (s : ServeMuxM) (host path : String) (h : Handler) :
    Option ServeMuxM :=
  muxRouteHostApply s path host (setHandlerData methodAny h)

/-- `RouteHost(host, path).Any(handler)` — the call the `HandleHost`
documentation describes, with the host key and pattern in the documented
roles. -/
def muxRouteHostAny (s : ServeMuxM) (host path : String) (h : Handler) :
    Option ServeMuxM :=
  muxRouteHostApply s host path (setHandlerData methodAny h)

/-- `http.Request.URL.RequestURI()` for our URL model (no opaque part, no
query): the escaped path, or `/` if that is empty. -/
def requestURI (path : String) : String := if path = "" then "/" else path

/-- `ServeMux.ServeHTTP`.  `none` models a panic (unknown method in
`getVerbFlag`, the empty-path slice panic in `execute`, or serving a nil
handler when neither a handler nor a NOT_FOUND fallback exists). -/
def serveHTTP (s : ServeMuxM) (req : Request) : Option Response :=
  if req.path ≠ "/" && endsWithSlash req.path then
    -- redirect trailing slashes, without consulting the tree
    some (.redirect 308 (requestURI (trimRightSlashes req.path)))
  else
    let tree := (hostLookup s.hostRoutes req.host).getD s.baseRoute
    (execute tree req.method req.path).bind (fun ex =>
      let h := match ex.handler with
        | some h => some h
        | none => ex.notFound
      (runChain ex.middleware h).2)

/-- `ServeMux.HandlerAndMiddleware` (the lookup-only entry point): handler,
middleware list and matched pattern; `none` models the same panics as
`serveHTTP` minus the chain (no trailing-slash redirect here either,
faithful to the source). -/
def handlerAndMiddleware (s : ServeMuxM) (req : Request) :
    Option (Option Handler × List MW × String) :=
  let tree := (hostLookup s.hostRoutes req.host).getD s.baseRoute
  (execute tree req.method req.path).map (fun ex =>
    let h := match ex.handler with
      | some h => some h
      | none => ex.notFound
    (h, ex.middleware, ex.pattern))

/-! ## Fixtures, spec-side descriptions and invariant definitions
used by the claim theorems -/

def rC2 : Route :=
  (newRoute 0).applyData (setHandlerData methodOptions (.user 4))

def rC5 : Route :=
  ((newRoute 0).applyData (setHandlerData methodGet (.user 1))).applyData
    (setHandlerData methodDelete (.user 2))

def rC8 : Route :=
  .node { newRouteData 0 with pattern := ":id", isParamNode := true, paramName := "id" }
    [] none none

def treeC8 : Route :=
  ((routeOn (setHandlerData methodGet (.user 1)) (newRoute 0) "/users/:id/info" 1).map
    (·.1)).getD (newRoute 0)

def muxC10 : ServeMuxM :=
  (muxHandleHost newServeMux "example.com" "/a" (.user 7)).getD newServeMux

/-- The middleware contributed by one node for a verb: the bindings whose
mask matches, in registration order. -/
def mwContribution (r : Route) (verb : VerbFlag) : List MW :=
  (r.middlewareOf.filter (fun mv => mv.verb.Matches verb)).map (·.mid)

/-- The nodes the `getExecution` loop visits, in root-to-leaf order
(following the spec's description of the descent). -/
def visitedNodes : List String → Route → List Route
  | [], _ => []
  | _ :: rest, r =>
    r :: (if rest.isEmpty || r.isWildcardNode then []
      else match rest with
        | [] => []
        | s :: rest' =>
          match selectChild r s with
          | some child => visitedNodes (s :: rest') child
          | none => [])

/-- The search predicate of `childList.Search` (out-of-range indices count
as `true`, matching the `i < l.Len()` guard after the search). -/
def childSearchPred (l : List Route) (target : String) (i : Nat) : Bool :=
  match l.get? i with
  | some r => !strLtB r.pattern target
  | none => true

/-- Every node's literal children are strictly sorted by pattern.  This is
the invariant `sort.Sort` maintains; all trees reachable through the
registration API satisfy it (see `create_sorted`). -/
inductive SortedTree : Route → Prop where
  | mk : ∀ (d : RouteData) (cs : List Route) (pc wc : Option Route),
      List.Pairwise (fun a b => strLtB a.pattern b.pattern = true) cs →
      (∀ x ∈ cs, SortedTree x) →
      (∀ x, pc = some x → SortedTree x) →
      (∀ x, wc = some x → SortedTree x) →
      SortedTree (.node d cs pc wc)

def rC1lit : Route :=
  .node { newRouteData 2 with pattern := "jim" } [] none none
def rC1par : Route :=
  .node { newRouteData 3 with pattern := ":id", isParamNode := true, paramName := "id" }
    [] none none
def rC1wild : Route :=
  .node { newRouteData 4 with pattern := "*", isWildcardNode := true } [] none none
def rC1 : Route :=
  .node (newRouteData 1) [rC1lit] (some rC1par) (some rC1wild)

def rC3old : Route :=
  .node { newRouteData 5 with pattern := ":id", isParamNode := true, paramName := "id" }
    [] none none
def rC3 : Route := .node (newRouteData 0) [] (some rC3old) none

/-- No wildcard segment in a non-final position past the head (the head is
the current node's own pattern, never created). -/
def noInnerStar : List String → Bool
  | _ :: q :: y :: rest => !(q == "*") && noInnerStar (q :: y :: rest)
  | _ => true

def tC7 : Route :=
  ((routeOn (fun d => d) (newRoute 0) "/a/b" 1).map (·.1)).getD (newRoute 0)

def treeC3 : Option Route :=
  ((routeOn (setHandlerData methodGet (.user 1)) (newRoute 0) "/users/:id" 1).bind
    (fun x => routeOn (fun d => d) x.1 "/users/:name" x.2.2)).map (·.1)


/-! ## Helper lemmas -/

@[simp] theorem setChildren_pattern (r : Route) (cs : List Route) :
    (r.setChildren cs).pattern = r.pattern := by cases r; rfl
@[simp] theorem setChildren_children (r : Route) (cs : List Route) :
    (r.setChildren cs).children = cs := by cases r; rfl
@[simp] theorem setChildren_paramChild (r : Route) (cs : List Route) :
    (r.setChildren cs).paramChild = r.paramChild := by cases r; rfl
@[simp] theorem setChildren_wildcardChild (r : Route) (cs : List Route) :
    (r.setChildren cs).wildcardChild = r.wildcardChild := by cases r; rfl
@[simp] theorem setChildren_data (r : Route) (cs : List Route) :
    (r.setChildren cs).data = r.data := by cases r; rfl

@[simp] theorem setParamChild_pattern (r : Route) (pc : Option Route) :
    (r.setParamChild pc).pattern = r.pattern := by cases r; rfl
@[simp] theorem setParamChild_children (r : Route) (pc : Option Route) :
    (r.setParamChild pc).children = r.children := by cases r; rfl
@[simp] theorem setParamChild_paramChild (r : Route) (pc : Option Route) :
    (r.setParamChild pc).paramChild = pc := by cases r; rfl
@[simp] theorem setParamChild_wildcardChild (r : Route) (pc : Option Route) :
    (r.setParamChild pc).wildcardChild = r.wildcardChild := by cases r; rfl
@[simp] theorem setParamChild_data (r : Route) (pc : Option Route) :
    (r.setParamChild pc).data = r.data := by cases r; rfl

@[simp] theorem setWildcardChild_pattern (r : Route) (wc : Option Route) :
    (r.setWildcardChild wc).pattern = r.pattern := by cases r; rfl
@[simp] theorem setWildcardChild_children (r : Route) (wc : Option Route) :
    (r.setWildcardChild wc).children = r.children := by cases r; rfl
@[simp] theorem setWildcardChild_paramChild (r : Route) (wc : Option Route) :
    (r.setWildcardChild wc).paramChild = r.paramChild := by cases r; rfl
@[simp] theorem setWildcardChild_wildcardChild (r : Route) (wc : Option Route) :
    (r.setWildcardChild wc).wildcardChild = wc := by cases r; rfl
@[simp] theorem setWildcardChild_data (r : Route) (wc : Option Route) :
    (r.setWildcardChild wc).data = r.data := by cases r; rfl

@[simp] theorem applyData_children (f : RouteData → RouteData) (r : Route) :
    (r.applyData f).children = r.children := by cases r; rfl
@[simp] theorem applyData_paramChild (f : RouteData → RouteData) (r : Route) :
    (r.applyData f).paramChild = r.paramChild := by cases r; rfl
@[simp] theorem applyData_wildcardChild (f : RouteData → RouteData) (r : Route) :
    (r.applyData f).wildcardChild = r.wildcardChild := by cases r; rfl
@[simp] theorem applyData_data (f : RouteData → RouteData) (r : Route) :
    (r.applyData f).data = f r.data := by cases r; rfl

theorem setParamChild_self (r : Route) (pc : Option Route) (h : r.paramChild = pc) :
    r.setParamChild pc = r := by cases r; cases h; rfl

theorem setWildcardChild_self (r : Route) (wc : Option Route) (h : r.wildcardChild = wc) :
    r.setWildcardChild wc = r := by cases r; cases h; rfl

theorem setChildren_self (r : Route) (cs : List Route) (h : r.children = cs) :
    r.setChildren cs = r := by cases r; cases h; rfl

theorem paramsLookup_paramsSet (ps : List (String × String)) (k v : String) :
    paramsLookup (paramsSet ps k v) k = some v := by
  induction ps with
  | nil => simp [paramsSet, paramsLookup]
  | cons p rest ih =>
    obtain ⟨k', v'⟩ := p
    by_cases h : k' = k
    · simp [paramsSet, paramsLookup, h]
    · simp [paramsSet, paramsLookup, h, ih]

theorem applyData_id (r : Route) : r.applyData (fun d => d) = r := by
  cases r; rfl

theorem nodeVisit_handler_of_ne (method : String) (verb : VerbFlag) (seg : String)
    (r : Route) (ex : RouteExecution) (h : method ≠ methodOptions) :
    (nodeVisit method verb seg r ex).handler = ex.handler := by
  unfold nodeVisit
  simp only [if_neg h]
  cases handlersLookup r.handlersOf notFoundKey <;>
    cases hp : r.isParamNode <;> simp

theorem nodeVisit_handler_options (verb : VerbFlag) (seg : String)
    (r : Route) (ex : RouteExecution) (h : Handler)
    (hl : handlersLookup r.handlersOf methodOptions = some h) :
    (nodeVisit methodOptions verb seg r ex).handler = some h := by
  unfold nodeVisit
  simp only [if_pos rfl, hl]
  cases handlersLookup r.handlersOf notFoundKey <;>
    cases hp : r.isParamNode <;> simp

theorem nodeVisit_params_of_param (method : String) (verb : VerbFlag) (seg : String)
    (r : Route) (ex : RouteExecution) (hp : r.isParamNode = true) :
    (nodeVisit method verb seg r ex).params =
      paramsSet ex.params r.paramNameOf ((pathUnescape seg).getD "") := by
  unfold nodeVisit
  cases handlersLookup r.handlersOf notFoundKey <;>
    by_cases hm : method = methodOptions <;>
      simp only [hm, if_pos, if_neg, hp] <;>
        (try cases handlersLookup r.handlersOf methodOptions) <;> simp [hp]

/-! ## Claim C2: terminal handler priority -/

/-- **C2.** At the terminal node of a lookup the dispatched handler is the
first hit among: the exact-method handler; for HEAD, the GET handler; the
ANY handler; the previously recorded (ancestor OPTIONS) handler carried in
the execution; and the synthesized method-not-allowed handler.  The last
two conjuncts show that the carried handler is recorded exactly by the
OPTIONS-save step of the traversal, so it is an ancestor's OPTIONS handler
and survives only when nothing else matched. -/
theorem getHandler_priority_order (r : Route) (method : String) (ex : RouteExecution) :
    ((getHandler r method ex).handler =
      ((((handlersLookup r.handlersOf method).orElse (fun _ =>
          if method = methodHead then handlersLookup r.handlersOf methodGet else none)).orElse
        (fun _ => handlersLookup r.handlersOf methodAny)).orElse
        (fun _ => ex.handler)).orElse (fun _ => methodNotAllowed r))
    ∧ (∀ (verb : VerbFlag) (seg : String), method ≠ methodOptions →
        (nodeVisit method verb seg r ex).handler = ex.handler)
    ∧ (∀ (verb : VerbFlag) (seg : String) (h : Handler), method = methodOptions →
        handlersLookup r.handlersOf methodOptions = some h →
        (nodeVisit method verb seg r ex).handler = some h) := by
  refine ⟨?_, ?_, ?_⟩
  · unfold getHandler
    cases h1 : handlersLookup r.handlersOf method
    · cases h2 : (if method = methodHead then handlersLookup r.handlersOf methodGet else none)
      · cases h3 : handlersLookup r.handlersOf methodAny
        · cases h4 : ex.handler <;> simp [h2, h4, Option.orElse]
        · simp [h2, Option.orElse]
      · simp [h2, Option.orElse]
    · simp [Option.orElse]
  · intro verb seg h
    exact nodeVisit_handler_of_ne method verb seg r ex h
  · intro verb seg h hm hl
    subst hm
    exact nodeVisit_handler_options verb seg r ex h hl

theorem getHandler_priority_order_witness :
    (nodeVisit methodGet flagGet "seg" rC2 emptyExecution).handler = emptyExecution.handler
    ∧ (nodeVisit methodOptions flagOptions "seg" rC2 emptyExecution).handler = some (.user 4) :=
  ⟨(getHandler_priority_order rC2 methodGet emptyExecution).2.1 flagGet "seg" (by decide),
   (getHandler_priority_order rC2 methodOptions emptyExecution).2.2 flagOptions "seg"
     (.user 4) rfl (by decide)⟩

/-! ## Claim C5: the synthesized 405 handler -/

/-- **C5.** The synthesized method-not-allowed handler carries exactly the
methods registered on the node except `ANY` and `NOT_FOUND`; it exists iff
at least one such method exists; its response is a 405 whose Allow header
joins that list; and `getHandler` falls back to it only when the exact,
HEAD→GET and ANY lookups miss and no handler was recorded — leaving the
handler unset (so the not-found fallback applies) when the node has no real
method handler. -/
theorem methodNotAllowed_allow_set (r : Route) (method : String) (ex : RouteExecution) :
    ((∀ ms, methodNotAllowed r = some (.mnah ms) →
        ∀ m, m ∈ ms ↔ (m ∈ r.handlersOf.map Prod.fst ∧ m ≠ methodAny ∧ m ≠ notFoundKey))
    ∧ (∀ h, methodNotAllowed r = some h → ∃ ms, h = .mnah ms)
    ∧ ((methodNotAllowed r = none) ↔ allowedMethods r = [])
    ∧ (∀ ms, serveHandler (.mnah ms) = .methodNotAllowedResp (joinComma ms))
    ∧ (handlersLookup r.handlersOf method = none →
        (if method = methodHead then handlersLookup r.handlersOf methodGet else none) = none →
        handlersLookup r.handlersOf methodAny = none →
        ex.handler = none →
        (getHandler r method ex).handler = methodNotAllowed r)) := by
  refine ⟨?_, ?_, ?_, fun ms => rfl, ?_⟩
  · intro ms hms m
    unfold methodNotAllowed at hms
    by_cases hlen : 0 < (allowedMethods r).length
    · simp only [if_pos hlen, Option.some.injEq, Handler.mnah.injEq] at hms
      subst hms
      simp [allowedMethods, List.mem_filter]
    · simp [if_neg hlen] at hms
  · intro h hm
    unfold methodNotAllowed at hm
    by_cases hlen : 0 < (allowedMethods r).length
    · simp only [if_pos hlen, Option.some.injEq] at hm
      exact ⟨_, hm.symm⟩
    · simp [if_neg hlen] at hm
  · unfold methodNotAllowed
    by_cases hlen : 0 < (allowedMethods r).length
    · simp only [if_pos hlen]
      constructor
      · intro h; exact absurd h (by simp)
      · intro h; rw [h] at hlen; simp at hlen
    · simp only [if_neg hlen]
      simp only [Nat.not_lt, Nat.le_zero, List.length_eq_zero] at hlen
      simp [hlen]
  · intro h1 h2 h3 h4
    unfold getHandler
    rw [h1, h2, h3]
    simp [h4]

theorem methodNotAllowed_allow_set_witness :
    ((methodGet ∈ ["GET", "DELETE"]) ↔
      (methodGet ∈ rC5.handlersOf.map Prod.fst ∧ methodGet ≠ methodAny ∧ methodGet ≠ notFoundKey))
    ∧ (getHandler rC5 methodPost emptyExecution).handler = methodNotAllowed rC5 :=
  ⟨(methodNotAllowed_allow_set rC5 methodPost emptyExecution).1 ["GET", "DELETE"]
      (by decide) methodGet,
   (methodNotAllowed_allow_set rC5 methodPost emptyExecution).2.2.2.2
      (by decide) (by decide) (by decide) rfl⟩

/-! ## Claim C8: path-parameter decoding -/

/-- **C8 (amended).** At a parameter node the stored parameter value is the
percent-decoded segment when decoding succeeds; when decoding fails the
stored value is the empty string — the error return value of
`url.PathUnescape` whose error is discarded — not the raw segment bytes. -/
theorem param_value_decoded (method : String) (verb : VerbFlag) (seg : String)
    (r : Route) (ex : RouteExecution) (hp : r.isParamNode = true) :
    (∀ v, pathUnescape seg = some v →
      paramsLookup (nodeVisit method verb seg r ex).params r.paramNameOf = some v)
    ∧ (pathUnescape seg = none →
      paramsLookup (nodeVisit method verb seg r ex).params r.paramNameOf = some "") := by
  constructor
  · intro v hv
    rw [nodeVisit_params_of_param method verb seg r ex hp, hv]
    exact paramsLookup_paramsSet ex.params r.paramNameOf v
  · intro hv
    rw [nodeVisit_params_of_param method verb seg r ex hp, hv]
    exact paramsLookup_paramsSet ex.params r.paramNameOf ""

theorem param_value_decoded_witness :
    (paramsLookup (nodeVisit methodGet flagGet "ji%2Fm" rC8 emptyExecution).params
        rC8.paramNameOf = some "ji/m")
    ∧ (paramsLookup (nodeVisit methodGet flagGet "%zz" rC8 emptyExecution).params
        rC8.paramNameOf = some "") :=
  ⟨(param_value_decoded methodGet flagGet "ji%2Fm" rC8 emptyExecution (by decide)).1
      "ji/m" (by decide),
   (param_value_decoded methodGet flagGet "%zz" rC8 emptyExecution (by decide)).2
      (by decide)⟩

/-- **C8 counterexample.** Looking up `/users/%zz/info` (segment `%zz`,
whose percent-decoding fails) against a tree with `/users/:id/info`
registered stores `""` for `id` — not the literal raw bytes `"%zz"` the
claim requires — while the handler still runs. -/
theorem param_value_raw_on_failure_false :
    pathUnescape "%zz" = none
    ∧ (execute treeC8 methodGet "/users/%zz/info").map
        (fun ex => (paramsLookup ex.params "id", ex.handler))
      = some (some "", some (.user 1))
    ∧ ("" : String) ≠ "%zz" := by
  refine ⟨by decide, by decide, by decide⟩

/-! ## Claim C4: trailing-slash redirect -/

/-- **C4 (amended).** For a request whose URL path is not `/` and ends with
`/`, dispatch responds 308 with Location the path with *all* trailing
slashes removed (`strings.TrimRight`), or `/` when nothing remains; the
response is the same for every multiplexer, so no tree lookup or handler
dispatch takes part in it. -/
theorem trailing_slash_redirect (s : ServeMuxM) (req : Request)
    (h1 : req.path ≠ "/") (h2 : endsWithSlash req.path = true) :
    serveHTTP s req = some (.redirect 308 (requestURI (trimRightSlashes req.path))) := by
  unfold serveHTTP
  simp [h1, h2]

theorem trailing_slash_redirect_witness :
    serveHTTP newServeMux ⟨methodGet, "", "/b/"⟩ =
      some (.redirect 308 (requestURI (trimRightSlashes "/b/"))) :=
  trailing_slash_redirect newServeMux ⟨methodGet, "", "/b/"⟩ (by decide) (by decide)

/-- **C4 counterexample.** For the path `/a//` the claim requires Location
`/a/` (the path with the trailing `/` stripped), but `strings.TrimRight`
strips every trailing slash and the mux answers Location `/a`. -/
theorem trailing_slash_redirect_single_strip_false :
    serveHTTP newServeMux ⟨methodGet, "", "/a//"⟩ = some (.redirect 308 "/a")
    ∧ serveHTTP newServeMux ⟨methodGet, "", "/a//"⟩ ≠ some (.redirect 308 "/a/") := by
  refine ⟨by decide, by decide⟩

/-! ## Claim C10: HandleHost -/

/-- **C10 (code bug).** `HandleHost(h, p, x)` calls `RouteHost(p, h)` —
`RouteHost`'s parameters are `(host, path)`, so the host key and the
pattern are swapped: the handler lands on pattern `example.com` in the
tree keyed by host `/a`.  A GET for `/a` with URL host `example.com`
therefore gets the 404 fallback instead of the handler, while the
documented equivalent `RouteHost(h, p).Any(x)` (last conjunct) serves it. -/
theorem handleHost_swaps_host_and_path :
    (muxHandleHost newServeMux "example.com" "/a" (.user 7)).isSome
    ∧ muxC10.hostRoutes.map Prod.fst = ["/a"]
    ∧ serveHTTP muxC10 ⟨methodGet, "example.com", "/a"⟩ = some .notFoundResp
    ∧ (muxRouteHostAny newServeMux "example.com" "/a" (.user 7)).bind
        (fun s => serveHTTP s ⟨methodGet, "example.com", "/a"⟩) = some (.fromUser 7) := by
  refine ⟨by decide, by decide, by decide, by decide⟩

/-! ## Claim C6: middleware order -/

theorem nodeVisit_middleware (method : String) (verb : VerbFlag) (seg : String)
    (r : Route) (ex : RouteExecution) :
    (nodeVisit method verb seg r ex).middleware = ex.middleware ++ mwContribution r verb := by
  unfold nodeVisit mwContribution
  cases handlersLookup r.handlersOf notFoundKey <;>
    by_cases hm : method = methodOptions <;>
      simp only [hm, if_pos, if_neg] <;>
        (try cases handlersLookup r.handlersOf methodOptions) <;>
          cases hp : r.isParamNode <;> simp

theorem getHandler_middleware (r : Route) (method : String) (ex : RouteExecution) :
    (getHandler r method ex).middleware = ex.middleware := by
  unfold getHandler
  cases handlersLookup r.handlersOf method
  · cases (if method = methodHead then handlersLookup r.handlersOf methodGet else none)
    · cases handlersLookup r.handlersOf methodAny
      · by_cases h : ex.handler = none <;> simp [h]
      · simp
    · simp
  · simp

/-- **C6.** (i) The middleware list a lookup produces is the input list
extended by the concatenation, over the visited nodes in root-to-leaf
order, of each node's matching bindings in registration order; (ii) the
composed chain invokes middleware in exactly that list order (each one that
calls its continuation) and then the terminal handler. -/
theorem middleware_root_to_leaf_order (method : String) (verb : VerbFlag)
    (parts : List String) (r : Route) (ex : RouteExecution) :
    ((getExecution method verb parts r ex).middleware =
      ex.middleware ++ ((visitedNodes parts r).map (fun n => mwContribution n verb)).flatten)
    ∧ (∀ (mids : List MW) (h : Handler), (∀ m ∈ mids, m.callsNext = true) →
        runChain mids (some h) = (mids.map (·.id), some (serveHandler h))) := by
  constructor
  · induction parts generalizing r ex with
    | nil => simp [getExecution, visitedNodes]
    | cons seg rest ih =>
      cases rest with
      | nil =>
        simp only [getExecution, visitedNodes, List.isEmpty_nil, Bool.true_or, if_pos]
        rw [getHandler_middleware, nodeVisit_middleware]
        simp
      | cons s rest' =>
        by_cases hw : r.isWildcardNode
        · simp only [getExecution, visitedNodes, List.isEmpty_cons, Bool.false_or, hw,
            if_pos]
          rw [getHandler_middleware, nodeVisit_middleware]
          simp
        · simp only [getExecution, visitedNodes, List.isEmpty_cons, Bool.false_or, hw,
            Bool.false_eq_true, if_neg, not_false_eq_true]
          cases hsel : selectChild r s with
          | some child =>
            rw [ih child (nodeVisit method verb seg r ex), nodeVisit_middleware]
            simp
          | none =>
            rw [nodeVisit_middleware]
            simp
  · intro mids h hall
    induction mids with
    | nil => simp [runChain]
    | cons m rest ih =>
      have hm : m.callsNext = true := hall m (by simp)
      have hrest : ∀ m' ∈ rest, m'.callsNext = true := fun m' hm' => hall m' (by simp [hm'])
      simp [runChain, hm, ih hrest]

theorem middleware_root_to_leaf_order_witness :
    runChain [⟨1, true⟩, ⟨2, true⟩] (some (.user 5)) = ([1, 2], some (.fromUser 5)) :=
  (middleware_root_to_leaf_order methodGet flagGet [] (newRoute 0) emptyExecution).2
    [⟨1, true⟩, ⟨2, true⟩] (.user 5) (by decide)

/-! ## Claim C9: totality of the hot path -/

theorem nodeVisit_notFound (method : String) (verb : VerbFlag) (seg : String)
    (r : Route) (ex : RouteExecution) :
    (nodeVisit method verb seg r ex).notFound =
      match handlersLookup r.handlersOf notFoundKey with
      | some h => some h
      | none => ex.notFound := by
  unfold nodeVisit
  cases handlersLookup r.handlersOf notFoundKey <;>
    by_cases hm : method = methodOptions <;>
      simp only [hm, if_pos, if_neg] <;>
        (try cases handlersLookup r.handlersOf methodOptions) <;>
          cases hp : r.isParamNode <;> simp

theorem getHandler_notFound (r : Route) (method : String) (ex : RouteExecution) :
    (getHandler r method ex).notFound = ex.notFound := by
  unfold getHandler
  cases handlersLookup r.handlersOf method
  · cases (if method = methodHead then handlersLookup r.handlersOf methodGet else none)
    · cases handlersLookup r.handlersOf methodAny
      · by_cases h : ex.handler = none <;> simp [h]
      · simp
    · simp
  · simp

theorem nodeVisit_notFound_isSome (method : String) (verb : VerbFlag) (seg : String)
    (r : Route) (ex : RouteExecution) (h : ex.notFound.isSome = true) :
    ((nodeVisit method verb seg r ex).notFound).isSome = true := by
  rw [nodeVisit_notFound]
  cases handlersLookup r.handlersOf notFoundKey <;> simp [h]

theorem getExecution_notFound_isSome (method : String) (verb : VerbFlag) :
    ∀ (parts : List String) (r : Route) (ex : RouteExecution),
      ex.notFound.isSome = true →
      ((getExecution method verb parts r ex).notFound).isSome = true := by
  intro parts
  induction parts with
  | nil => intro r ex h; simpa [getExecution] using h
  | cons seg rest ih =>
    intro r ex h
    have hnv := nodeVisit_notFound_isSome method verb seg r ex h
    cases rest with
    | nil =>
      simp only [getExecution, List.isEmpty_nil, Bool.true_or, if_pos]
      rw [getHandler_notFound]
      exact hnv
    | cons s rest' =>
      by_cases hw : r.isWildcardNode
      · simp only [getExecution, List.isEmpty_cons, Bool.false_or, hw, if_pos]
        rw [getHandler_notFound]
        exact hnv
      · simp only [getExecution, List.isEmpty_cons, Bool.false_or, hw,
          Bool.false_eq_true, if_neg, not_false_eq_true]
        cases hsel : selectChild r s with
        | some child => exact ih child (nodeVisit method verb seg r ex) hnv
        | none => exact hnv

/-- The root node is visited first, so a NOT_FOUND handler on the chosen
tree's root guarantees the execution's fallback is set. -/
theorem getExecution_notFound_of_root (method : String) (verb : VerbFlag)
    (seg : String) (rest : List String) (r : Route) (ex : RouteExecution)
    (hn : (handlersLookup r.handlersOf notFoundKey).isSome = true) :
    ((getExecution method verb (seg :: rest) r ex).notFound).isSome = true := by
  obtain ⟨h, hh⟩ := Option.isSome_iff_exists.mp hn
  have hnv : ((nodeVisit method verb seg r ex).notFound).isSome = true := by
    rw [nodeVisit_notFound, hh]; rfl
  cases rest with
  | nil =>
    simp only [getExecution, List.isEmpty_nil, Bool.true_or, if_pos]
    rw [getHandler_notFound]
    exact hnv
  | cons s rest' =>
    by_cases hw : r.isWildcardNode
    · simp only [getExecution, List.isEmpty_cons, Bool.false_or, hw, if_pos]
      rw [getHandler_notFound]
      exact hnv
    · simp only [getExecution, List.isEmpty_cons, Bool.false_or, hw,
        Bool.false_eq_true, if_neg, not_false_eq_true]
      cases hsel : selectChild r s with
      | some child =>
        exact getExecution_notFound_isSome method verb (s :: rest') child
          (nodeVisit method verb seg r ex) hnv
      | none => exact hnv

theorem runChain_isSome (mids : List MW) (h : Option Handler)
    (hh : h.isSome = true) : ((runChain mids h).2).isSome = true := by
  induction mids with
  | nil =>
    obtain ⟨h', hh'⟩ := Option.isSome_iff_exists.mp hh
    subst hh'
    simp [runChain]
  | cons m rest ih =>
    by_cases hc : m.callsNext = true
    · simp [runChain, hc, ih]
    · simp only [Bool.not_eq_true] at hc
      simp [runChain, hc]

theorem execSplit_shape (path : String) (hp : path ≠ "") :
    ∃ seg rest, execSplit path = some (seg :: rest) := by
  unfold execSplit
  cases hpath : path.data with
  | nil =>
    exact absurd (by cases path with
      | mk d => cases d with
        | nil => rfl
        | cons c cs => simp at hpath) hp
  | cons c tail =>
    by_cases hroot : path = "/"
    · exact ⟨"", [], by simp [hroot]⟩
    · exact ⟨"", execSplitCore tail [], by simp [hroot]⟩

/-- **C9 (amended).** For every request whose method is one of the eight
recognized tokens and whose URL path is non-empty, dispatched against a
tree whose root carries a NOT_FOUND handler (always true for the default
tree of `NewServeMux`), the hot path always materializes a response —
handler, 405, redirect, or not-found.  (For an unrecognized method that
reaches lookup the code panics in `getVerbFlag`; see the counterexample.) -/
theorem dispatch_total_for_known_methods (s : ServeMuxM) (req : Request)
    (hm : (getVerbFlag req.method).isSome = true)
    (hp : req.path ≠ "")
    (hn : (handlersLookup
        ((hostLookup s.hostRoutes req.host).getD s.baseRoute).handlersOf
        notFoundKey).isSome = true) :
    (serveHTTP s req).isSome = true := by
  unfold serveHTTP
  by_cases hredir : (decide (req.path ≠ "/") && endsWithSlash req.path) = true
  · rw [if_pos hredir]
    simp
  · rw [if_neg hredir]
    obtain ⟨seg, rest, hsplit⟩ := execSplit_shape req.path hp
    obtain ⟨verb, hverb⟩ := Option.isSome_iff_exists.mp hm
    unfold execute
    rw [hsplit, hverb]
    simp only [Option.map_some, Option.bind_some]
    set tree := (hostLookup s.hostRoutes req.host).getD s.baseRoute with htree
    set ex := getExecution req.method verb (seg :: rest) tree emptyExecution with hex
    have hnf : (ex.notFound).isSome = true :=
      getExecution_notFound_of_root req.method verb seg rest tree emptyExecution hn
    apply runChain_isSome
    cases hh : ex.handler with
    | some h => simp
    | none => simpa using hnf

theorem dispatch_total_witness :
    (serveHTTP newServeMux ⟨methodGet, "", "/x"⟩).isSome = true :=
  dispatch_total_for_known_methods newServeMux ⟨methodGet, "", "/x"⟩
    (by decide) (by decide) (by decide)

/-- **C9 counterexample.** A request with the unrecognized method `TRACE`
reaches `getVerbFlag`, which has no case for it and panics — the hot
dispatch path does not materialize a response (`none` models the panic). -/
theorem dispatch_unknown_method_panics :
    getVerbFlag "TRACE" = none
    ∧ serveHTTP newServeMux ⟨"TRACE", "", "/x"⟩ = none := by
  refine ⟨by decide, by decide⟩

/-! ## Claim C1: child-selection precedence -/

theorem sortSearchGo_spec (f : Nat → Bool)
    (mono : ∀ k k', k ≤ k' → f k = true → f k' = true) :
    ∀ (fuel i j : Nat), i ≤ j → j - i ≤ fuel →
      (∀ k, k < i → f k = false) → (∀ k, j ≤ k → f k = true) →
      (∀ k, k < sortSearchGo f fuel i j → f k = false)
      ∧ (∀ k, sortSearchGo f fuel i j ≤ k → f k = true) := by
  intro fuel
  induction fuel with
  | zero =>
    intro i j hij hfuel hlo hhi
    have hij' : i = j := by omega
    subst hij'
    exact ⟨hlo, fun k hk => hhi k hk⟩
  | succ fuel ih =>
    intro i j hij hfuel hlo hhi
    by_cases hlt : i < j
    · have hmid_lo : i ≤ (i + j) / 2 := by omega
      have hmid_hi : (i + j) / 2 < j := by omega
      cases hfh : f ((i + j) / 2) with
      | false =>
        have hlo' : ∀ k, k < (i + j) / 2 + 1 → f k = false := by
          intro k hk
          cases hfk : f k with
          | false => rfl
          | true =>
            have := mono k ((i + j) / 2) (by omega) hfk
            rw [this] at hfh
            exact absurd hfh (by simp)
        have hres := ih ((i + j) / 2 + 1) j (by omega) (by omega) hlo' hhi
        simpa [sortSearchGo, hlt, hfh] using hres
      | true =>
        have hhi' : ∀ k, (i + j) / 2 ≤ k → f k = true := by
          intro k hk
          exact mono ((i + j) / 2) k hk hfh
        have hres := ih i ((i + j) / 2) (by omega) (by omega) hlo hhi'
        simpa [sortSearchGo, hlt, hfh] using hres
    · have hij' : i = j := by omega
      subst hij'
      simpa [sortSearchGo, hlt] using ⟨hlo, fun k hk => hhi k hk⟩

theorem childSearchPred_eq_get (l : List Route) (target : String) {i : Nat}
    (h : i < l.length) :
    childSearchPred l target i = !strLtB (l.get ⟨i, h⟩).pattern target := by
  unfold childSearchPred
  rw [List.get?_eq_get h]

theorem childSearchPred_of_ge (l : List Route) (target : String) {i : Nat}
    (h : l.length ≤ i) : childSearchPred l target i = true := by
  unfold childSearchPred
  rw [List.get?_eq_none.mpr h]

theorem childSearchPred_mono (l : List Route) (target : String)
    (hs : List.Pairwise (fun a b => strLtB a.pattern b.pattern = true) l) :
    ∀ k k', k ≤ k' → childSearchPred l target k = true →
      childSearchPred l target k' = true := by
  intro k k' hkk hk
  by_cases hk'len : k' < l.length
  · have hklen : k < l.length := lt_of_le_of_lt hkk hk'len
    rw [childSearchPred_eq_get l target hklen] at hk
    rw [childSearchPred_eq_get l target hk'len]
    rcases Nat.eq_or_lt_of_le hkk with heq | hlt
    · subst heq
      simpa using hk
    · have hpair := (List.pairwise_iff_get.mp hs) ⟨k, hklen⟩ ⟨k', hk'len⟩ hlt
      simp only [Bool.not_eq_true'] at hk ⊢
      cases hcontra : strLtB (l.get ⟨k', hk'len⟩).pattern target with
      | false => rfl
      | true =>
        have := strLtB_trans hpair hcontra
        rw [this] at hk
        exact hk
  · exact childSearchPred_of_ge l target (by omega)

theorem childSearch_eq_sortSearch (l : List Route) (target : String) :
    childSearch l target =
      match l.get? (sortSearch l.length (childSearchPred l target)) with
      | some r => if r.pattern = target then some r else none
      | none => none := rfl

/-- Binary-search hit: on a strictly sorted child list, if some child's
pattern equals the segment, `childList.Search` returns exactly that child. -/
theorem childSearch_of_mem (l : List Route) (target : String)
    (hs : List.Pairwise (fun a b => strLtB a.pattern b.pattern = true) l)
    (c : Route) (hc : c ∈ l) (he : c.pattern = target) :
    childSearch l target = some c := by
  obtain ⟨m, hm⟩ := List.get_of_mem hc
  have hfm : childSearchPred l target m = true := by
    rw [childSearchPred_eq_get l target m.isLt]
    simp only [Fin.eta, hm, he, strLtB_irrefl]
    rfl
  have hspec := sortSearchGo_spec (childSearchPred l target)
    (childSearchPred_mono l target hs) l.length 0 l.length
    (Nat.zero_le _) (by omega)
    (fun k hk => absurd hk (Nat.not_lt_zero k))
    (fun k hk => childSearchPred_of_ge l target hk)
  set idx := sortSearchGo (childSearchPred l target) l.length 0 l.length with hidx
  have hle : idx ≤ (m : Nat) := by
    by_contra hgt
    have := hspec.1 m (by omega)
    rw [this] at hfm
    exact absurd hfm (by simp)
  have hge : (m : Nat) ≤ idx := by
    by_contra hgt
    have hidxlt : idx < (m : Nat) := by omega
    have hidxlen : idx < l.length := lt_trans hidxlt m.isLt
    have hfidx := hspec.2 idx le_rfl
    rw [childSearchPred_eq_get l target hidxlen] at hfidx
    have hpair := (List.pairwise_iff_get.mp hs) ⟨idx, hidxlen⟩ m hidxlt
    rw [hm, he] at hpair
    simp only [Bool.not_eq_true'] at hfidx
    rw [hpair] at hfidx
    exact absurd hfidx (by simp)
  have heq : idx = (m : Nat) := le_antisymm hle hge
  show (match l.get? idx with
    | some r => if r.pattern = target then some r else none
    | none => none) = some c
  rw [heq, List.get?_eq_get m.isLt]
  simp only [Fin.eta, hm, he, if_pos]

/-- Binary-search miss: if no child's pattern equals the segment, the
search returns nothing (no sortedness needed). -/
theorem childSearch_of_not_mem (l : List Route) (target : String)
    (h : ∀ c ∈ l, c.pattern ≠ target) :
    childSearch l target = none := by
  show (match l.get? (sortSearch l.length (childSearchPred l target)) with
    | some r => if r.pattern = target then some r else none
    | none => none) = none
  cases hg : l.get? (sortSearch l.length (childSearchPred l target)) with
  | none => rfl
  | some r =>
    have hr : r ∈ l := List.get?_mem hg
    simp [h r hr]

/-! ## Lemmas about `create` (shared by C3, C7 and the tree invariant) -/

@[simp] theorem pattern_node (d : RouteData) (cs : List Route)
    (pc wc : Option Route) : (Route.node d cs pc wc).pattern = d.pattern := rfl
@[simp] theorem children_node (d : RouteData) (cs : List Route)
    (pc wc : Option Route) : (Route.node d cs pc wc).children = cs := rfl
@[simp] theorem paramChild_node (d : RouteData) (cs : List Route)
    (pc wc : Option Route) : (Route.node d cs pc wc).paramChild = pc := rfl
@[simp] theorem wildcardChild_node (d : RouteData) (cs : List Route)
    (pc wc : Option Route) : (Route.node d cs pc wc).wildcardChild = wc := rfl

@[simp] theorem freshParamNode_pattern (c : Nat) (fp q : String) :
    (freshParamNode c fp q).pattern = q := rfl
@[simp] theorem freshWildNode_pattern (c : Nat) (fp q : String) :
    (freshWildNode c fp q).pattern = q := rfl
@[simp] theorem freshLitNode_pattern (c : Nat) (fp q : String) :
    (freshLitNode c fp q).pattern = q := rfl
@[simp] theorem freshParamNode_id (c : Nat) (fp q : String) :
    (freshParamNode c fp q).id = c := rfl

theorem create_cons_of_ne (f : RouteData → RouteData) {p : String}
    (rest : List String) (r : Route) (c : Nat) (h : r.pattern ≠ p) :
    create f (p :: rest) r c = none := by
  cases rest <;> simp [create, h]

theorem create_single_of_eq (f : RouteData → RouteData) (p : String)
    (r : Route) (c : Nat) (h : r.pattern = p) :
    create f [p] r c = some (r.applyData f, r.id, c) := by
  simp [create, h]

theorem create_isSome_of_pattern (f : RouteData → RouteData) :
    ∀ (rest : List String) (p : String) (r : Route) (c : Nat),
      r.pattern = p → (create f (p :: rest) r c).isSome = true := by
  intro rest
  induction rest with
  | nil =>
    intro p r c h
    simp [create, h]
  | cons q rest' ih =>
    intro p r c h
    unfold create
    rw [if_pos h]
    cases htl : tryLit (fun child => create f (q :: rest') child c) r with
    | some res => simp
    | none =>
      cases htp : tryPar (fun child => create f (q :: rest') child c) r with
      | some res => simp
      | none =>
        cases htw : tryWild (fun child => create f (q :: rest') child c) r with
        | some res => simp
        | none =>
          by_cases hcolon : startsWithColon q = true
          · rw [if_pos hcolon]
            have := ih q (freshParamNode c r.fullPath q) (c + 1) rfl
            obtain ⟨x, hx⟩ := Option.isSome_iff_exists.mp this
            rw [hx]
            obtain ⟨n', i, c'⟩ := x
            simp
          · rw [if_neg hcolon]
            by_cases hstar : q = "*"
            · rw [if_pos hstar]
              simp
            · rw [if_neg hstar]
              have := ih q (freshLitNode c r.fullPath q) (c + 1) rfl
              obtain ⟨x, hx⟩ := Option.isSome_iff_exists.mp this
              rw [hx]
              obtain ⟨n', i, c'⟩ := x
              simp

theorem create_none_iff_ne (f : RouteData → RouteData) (p : String)
    (rest : List String) (r : Route) (c : Nat) :
    create f (p :: rest) r c = none ↔ r.pattern ≠ p := by
  constructor
  · intro h hp
    have := create_isSome_of_pattern f rest p r c hp
    rw [h] at this
    exact absurd this (by simp)
  · intro h
    exact create_cons_of_ne f rest r c h

theorem tryLit_some (g : Route → Option (Route × Nat × Nat)) (r : Route)
    (out : Route × Nat × Nat) (h : tryLit g r = some out) :
    ∃ cs', firstCreate g r.children = some (cs', out.2.1, out.2.2)
      ∧ out.1 = r.setChildren cs' := by
  unfold tryLit at h
  cases hfc : firstCreate g r.children with
  | some y =>
    obtain ⟨ys, yi, yc⟩ := y
    rw [hfc] at h
    replace h : some (r.setChildren ys, yi, yc) = some out := h
    injection h with h
    subst h
    exact ⟨ys, rfl, rfl⟩
  | none =>
    rw [hfc] at h
    exact absurd h (by simp)

theorem tryPar_some (g : Route → Option (Route × Nat × Nat)) (r : Route)
    (out : Route × Nat × Nat) (h : tryPar g r = some out) :
    ∃ pc pc', r.paramChild = some pc ∧ g pc = some (pc', out.2.1, out.2.2)
      ∧ out.1 = r.setParamChild (some pc') := by
  unfold tryPar at h
  cases hpc : r.paramChild with
  | some pc =>
    rw [hpc] at h
    replace h : (match g pc with
      | some (pc', i, c') => some (r.setParamChild (some pc'), i, c')
      | none => none) = some out := h
    cases hgo : g pc with
    | some y =>
      obtain ⟨y1, y2, y3⟩ := y
      rw [hgo] at h
      replace h : some (r.setParamChild (some y1), y2, y3) = some out := h
      injection h with h
      subst h
      exact ⟨pc, y1, rfl, hgo, rfl⟩
    | none =>
      rw [hgo] at h
      exact absurd h (by simp)
  | none =>
    rw [hpc] at h
    exact absurd h (by simp)

theorem tryWild_some (g : Route → Option (Route × Nat × Nat)) (r : Route)
    (out : Route × Nat × Nat) (h : tryWild g r = some out) :
    ∃ wc wc', r.wildcardChild = some wc ∧ g wc = some (wc', out.2.1, out.2.2)
      ∧ out.1 = r.setWildcardChild (some wc') := by
  unfold tryWild at h
  cases hwc : r.wildcardChild with
  | some wc =>
    rw [hwc] at h
    replace h : (match g wc with
      | some (wc', i, c') => some (r.setWildcardChild (some wc'), i, c')
      | none => none) = some out := h
    cases hgo : g wc with
    | some y =>
      obtain ⟨y1, y2, y3⟩ := y
      rw [hgo] at h
      replace h : some (r.setWildcardChild (some y1), y2, y3) = some out := h
      injection h with h
      subst h
      exact ⟨wc, y1, rfl, hgo, rfl⟩
    | none =>
      rw [hgo] at h
      exact absurd h (by simp)
  | none =>
    rw [hwc] at h
    exact absurd h (by simp)

theorem tryLit_none_iff (g : Route → Option (Route × Nat × Nat)) (r : Route) :
    tryLit g r = none ↔ firstCreate g r.children = none := by
  unfold tryLit
  cases hfc : firstCreate g r.children with
  | some y => obtain ⟨a, b, cc⟩ := y; simp
  | none => simp

theorem tryPar_none_iff (g : Route → Option (Route × Nat × Nat)) (r : Route) :
    tryPar g r = none ↔ ∀ pc, r.paramChild = some pc → g pc = none := by
  unfold tryPar
  cases hpc : r.paramChild with
  | some pc =>
    cases hgo : g pc with
    | some y =>
      obtain ⟨a, b, cc⟩ := y
      simp only [hgo]
      constructor
      · intro h; exact absurd h (by simp)
      · intro h
        have := h pc rfl
        rw [this] at hgo
        exact absurd hgo (by simp)
    | none => simp [hgo]
  | none => simp

theorem tryWild_none_iff (g : Route → Option (Route × Nat × Nat)) (r : Route) :
    tryWild g r = none ↔ ∀ wc, r.wildcardChild = some wc → g wc = none := by
  unfold tryWild
  cases hwc : r.wildcardChild with
  | some wc =>
    cases hgo : g wc with
    | some y =>
      obtain ⟨a, b, cc⟩ := y
      simp only [hgo]
      constructor
      · intro h; exact absurd h (by simp)
      · intro h
        have := h wc rfl
        rw [this] at hgo
        exact absurd hgo (by simp)
    | none => simp [hgo]
  | none => simp

/-- The defining equation of `create` on a two-or-more-segment path. -/
theorem create_cons_cons (f : RouteData → RouteData) (p q : String)
    (rest : List String) (r : Route) (c : Nat) :
    create f (p :: q :: rest) r c =
      (if r.pattern = p then
        match tryLit (fun child => create f (q :: rest) child c) r with
        | some res => some res
        | none =>
          match tryPar (fun child => create f (q :: rest) child c) r with
          | some res => some res
          | none =>
            match tryWild (fun child => create f (q :: rest) child c) r with
            | some res => some res
            | none =>
              if startsWithColon q = true then
                match create f (q :: rest) (freshParamNode c r.fullPath q) (c + 1) with
                | some (n', i, c') => some (r.setParamChild (some n'), i, c')
                | none => none
              else if q = "*" then
                some (r.setWildcardChild
                  (some ((freshWildNode c r.fullPath q).applyData f)), c, c + 1)
              else
                match create f (q :: rest) (freshLitNode c r.fullPath q) (c + 1) with
                | some (n', i, c') =>
                  some (r.setChildren (sortRoutes (r.children ++ [n'])), i, c')
                | none => none
      else none) := rfl

/-- The unfolded step equation of `create` on a two-or-more-segment path
whose head matches the node. -/
theorem create_step_eq (f : RouteData → RouteData) (p q : String)
    (rest : List String) (r : Route) (c : Nat) (hp : r.pattern = p) :
    create f (p :: q :: rest) r c =
      (match tryLit (fun child => create f (q :: rest) child c) r with
      | some res => some res
      | none =>
        match tryPar (fun child => create f (q :: rest) child c) r with
        | some res => some res
        | none =>
          match tryWild (fun child => create f (q :: rest) child c) r with
          | some res => some res
          | none =>
            if startsWithColon q = true then
              match create f (q :: rest) (freshParamNode c r.fullPath q) (c + 1) with
              | some (n', i, c') => some (r.setParamChild (some n'), i, c')
              | none => none
            else if q = "*" then
              some (r.setWildcardChild
                (some ((freshWildNode c r.fullPath q).applyData f)), c, c + 1)
            else
              match create f (q :: rest) (freshLitNode c r.fullPath q) (c + 1) with
              | some (n', i, c') =>
                some (r.setChildren (sortRoutes (r.children ++ [n'])), i, c')
              | none => none) := by
  rw [create_cons_cons, if_pos hp]

/-- Case analysis for a successful `create` step on `p :: q :: rest`:
exactly one of the six branches produced the result. -/
theorem create_step_cases (f : RouteData → RouteData) (p q : String)
    (rest : List String) (r : Route) (c : Nat) (out : Route × Nat × Nat)
    (hp : r.pattern = p)
    (h : create f (p :: q :: rest) r c = some out) :
    (tryLit (fun child => create f (q :: rest) child c) r = some out)
    ∨ (tryLit (fun child => create f (q :: rest) child c) r = none
        ∧ tryPar (fun child => create f (q :: rest) child c) r = some out)
    ∨ (tryLit (fun child => create f (q :: rest) child c) r = none
        ∧ tryPar (fun child => create f (q :: rest) child c) r = none
        ∧ tryWild (fun child => create f (q :: rest) child c) r = some out)
    ∨ (tryLit (fun child => create f (q :: rest) child c) r = none
        ∧ tryPar (fun child => create f (q :: rest) child c) r = none
        ∧ tryWild (fun child => create f (q :: rest) child c) r = none
        ∧ ((startsWithColon q = true
            ∧ ∃ n', create f (q :: rest) (freshParamNode c r.fullPath q) (c + 1) =
                some (n', out.2.1, out.2.2)
              ∧ out.1 = r.setParamChild (some n'))
          ∨ (startsWithColon q = false ∧ q = "*"
            ∧ out = (r.setWildcardChild
                (some ((freshWildNode c r.fullPath q).applyData f)), c, c + 1))
          ∨ (startsWithColon q = false ∧ q ≠ "*"
            ∧ ∃ n', create f (q :: rest) (freshLitNode c r.fullPath q) (c + 1) =
                some (n', out.2.1, out.2.2)
              ∧ out.1 = r.setChildren (sortRoutes (r.children ++ [n']))))) := by
  rw [create_step_eq f p q rest r c hp] at h
  cases htl : tryLit (fun child => create f (q :: rest) child c) r with
  | some res =>
    rw [htl] at h
    replace h : some res = some out := h
    injection h with h
    subst h
    exact Or.inl rfl
  | none =>
    rw [htl] at h
    cases htp : tryPar (fun child => create f (q :: rest) child c) r with
    | some res =>
      rw [htp] at h
      replace h : some res = some out := h
      injection h with h
      subst h
      exact Or.inr (Or.inl ⟨rfl, rfl⟩)
    | none =>
      rw [htp] at h
      cases htw : tryWild (fun child => create f (q :: rest) child c) r with
      | some res =>
        rw [htw] at h
        replace h : some res = some out := h
        injection h with h
        subst h
        exact Or.inr (Or.inr (Or.inl ⟨rfl, rfl, rfl⟩))
      | none =>
        rw [htw] at h
        refine Or.inr (Or.inr (Or.inr ⟨rfl, rfl, rfl, ?_⟩))
        by_cases hcolon : startsWithColon q = true
        · rw [if_pos hcolon] at h
          cases hgo : create f (q :: rest) (freshParamNode c r.fullPath q) (c + 1) with
          | some y =>
            obtain ⟨y1, y2, y3⟩ := y
            rw [hgo] at h
            replace h : some (r.setParamChild (some y1), y2, y3) = some out := h
            injection h with h
            exact Or.inl ⟨hcolon, y1, by rw [← h], by rw [← h]⟩
          | none =>
            rw [hgo] at h
            exact absurd h (by simp)
        · rw [if_neg hcolon] at h
          by_cases hstar : q = "*"
          · rw [if_pos hstar] at h
            replace h : some (r.setWildcardChild
              (some ((freshWildNode c r.fullPath q).applyData f)), c, c + 1) = some out := h
            injection h with h
            exact Or.inr (Or.inl ⟨by simpa using hcolon, hstar, h.symm⟩)
          · rw [if_neg hstar] at h
            cases hgo : create f (q :: rest) (freshLitNode c r.fullPath q) (c + 1) with
            | some y =>
              obtain ⟨y1, y2, y3⟩ := y
              rw [hgo] at h
              replace h : some (r.setChildren (sortRoutes (r.children ++ [y1])), y2, y3)
                = some out := h
              injection h with h
              exact Or.inr (Or.inr ⟨by simpa using hcolon, hstar, y1, by rw [← h], by rw [← h]⟩)
            | none =>
              rw [hgo] at h
              exact absurd h (by simp)

theorem create_pattern_of_some (f : RouteData → RouteData)
    (hf : ∀ d, (f d).pattern = d.pattern) (parts : List String) (r : Route)
    (c : Nat) (r' : Route) (i c' : Nat)
    (h : create f parts r c = some (r', i, c')) : r'.pattern = r.pattern := by
  match parts with
  | [] => exact absurd h (by simp [create])
  | [p] =>
    by_cases hp : r.pattern = p
    · rw [create_single_of_eq f p r c hp] at h
      injection h with h
      simp only [Prod.mk.injEq] at h
      obtain ⟨h1, -, -⟩ := h
      subst h1
      show (r.applyData f).data.pattern = _
      rw [applyData_data]
      exact hf r.data
    · rw [create_cons_of_ne f [] r c hp] at h
      exact absurd h (by simp)
  | p :: q :: rest =>
    by_cases hp : r.pattern = p
    · rcases create_step_cases f p q rest r c (r', i, c') hp h with
        htl | ⟨-, htp⟩ | ⟨-, -, htw⟩ | ⟨-, -, -, hcr⟩
      · obtain ⟨cs', -, hout⟩ := tryLit_some _ r _ htl
        replace hout : r' = r.setChildren cs' := hout
        rw [hout]; simp
      · obtain ⟨pc, pc', -, -, hout⟩ := tryPar_some _ r _ htp
        replace hout : r' = r.setParamChild (some pc') := hout
        rw [hout]; simp
      · obtain ⟨wc, wc', -, -, hout⟩ := tryWild_some _ r _ htw
        replace hout : r' = r.setWildcardChild (some wc') := hout
        rw [hout]; simp
      · rcases hcr with ⟨-, n', -, hout⟩ | ⟨-, -, hout⟩ | ⟨-, -, n', -, hout⟩
        · replace hout : r' = r.setParamChild (some n') := hout
          rw [hout]; simp
        · have h1 : r' = (r.setWildcardChild
            (some ((freshWildNode c r.fullPath q).applyData f))) :=
            congrArg Prod.fst hout
          rw [h1]; simp
        · replace hout : r' = r.setChildren (sortRoutes (r.children ++ [n'])) := hout
          rw [hout]; simp
    · rw [create_cons_of_ne f (q :: rest) r c hp] at h
      exact absurd h (by simp)

theorem firstCreate_none_iff (g : Route → Option (Route × Nat × Nat))
    (l : List Route) : firstCreate g l = none ↔ ∀ x ∈ l, g x = none := by
  induction l with
  | nil => simp [firstCreate]
  | cons x xs ih =>
    unfold firstCreate
    cases hx : g x with
    | some y =>
      obtain ⟨a, b, cc⟩ := y
      simp only [List.mem_cons]
      constructor
      · intro h; exact absurd h (by simp)
      · intro h
        have := h x (Or.inl rfl)
        rw [this] at hx
        exact absurd hx (by simp)
    | none =>
      cases hrest : firstCreate g xs with
      | some y =>
        obtain ⟨a, b, cc⟩ := y
        simp only [List.mem_cons]
        constructor
        · intro h; exact absurd h (by simp)
        · intro h
          have : ∀ z ∈ xs, g z = none := fun z hz => h z (Or.inr hz)
          rw [ih.mpr this] at hrest
          exact absurd hrest (by simp)
      | none =>
        simp only [List.mem_cons]
        constructor
        · intro _ z hz
          rcases hz with hz | hz
          · rw [hz]; exact hx
          · exact ih.mp hrest z hz
        · intro _; trivial

/-! ## More `firstCreate` lemmas (for idempotence) -/

theorem firstCreate_some_decomp (g : Route → Option (Route × Nat × Nat))
    (l : List Route) (out : List Route × Nat × Nat)
    (h : firstCreate g l = some out) :
    ∃ pre x post x', l = pre ++ x :: post ∧ out.1 = pre ++ x' :: post
      ∧ (∀ y ∈ pre, g y = none) ∧ g x = some (x', out.2.1, out.2.2) := by
  induction l generalizing out with
  | nil => simp [firstCreate] at h
  | cons x xs ih =>
    unfold firstCreate at h
    cases hx : g x with
    | some y =>
      obtain ⟨x', i, cc⟩ := y
      rw [hx] at h
      replace h : some (x' :: xs, i, cc) = some out := h
      injection h with h
      subst h
      exact ⟨[], x, xs, x', rfl, rfl, by simp, hx⟩
    | none =>
      rw [hx] at h
      replace h : (match firstCreate g xs with
        | some (xs', i, c') => some (x :: xs', i, c')
        | none => none) = some out := h
      cases hrest : firstCreate g xs with
      | some y =>
        obtain ⟨ys, i, cc⟩ := y
        rw [hrest] at h
        replace h : some (x :: ys, i, cc) = some out := h
        injection h with h
        subst h
        obtain ⟨pre, z, post, z', hxs, hys, hpre, hz⟩ := ih (ys, i, cc) hrest
        refine ⟨x :: pre, z, post, z', by rw [List.cons_append, ← hxs], ?_, ?_, hz⟩
        · show x :: ys = (x :: pre) ++ z' :: post
          rw [List.cons_append]
          exact congrArg (x :: ·) hys
        · intro y hy
          rcases List.mem_cons.mp hy with hy | hy
          · rw [hy]; exact hx
          · exact hpre y hy
      | none =>
        rw [hrest] at h
        exact absurd h (by simp)

theorem firstCreate_cons (g : Route → Option (Route × Nat × Nat)) (x : Route)
    (xs : List Route) :
    firstCreate g (x :: xs) =
      (match g x with
      | some (x', i, c') => some (x' :: xs, i, c')
      | none =>
        match firstCreate g xs with
        | some (xs', i, c') => some (x :: xs', i, c')
        | none => none) := rfl

theorem firstCreate_reconstruct (g : Route → Option (Route × Nat × Nat))
    (pre : List Route) (x' : Route) (post : List Route) (i c₂ : Nat)
    (hpre : ∀ y ∈ pre, g y = none)
    (hx : g x' = some (x', i, c₂)) :
    firstCreate g (pre ++ x' :: post) = some (pre ++ x' :: post, i, c₂) := by
  induction pre with
  | nil =>
    rw [List.nil_append, firstCreate_cons, hx]
  | cons y pre' ih =>
    have ih' := ih (fun z hz => hpre z (by simp [hz]))
    rw [List.cons_append, firstCreate_cons, hpre y (by simp), ih']

theorem firstCreate_of_unique (g : Route → Option (Route × Nat × Nat))
    (l : List Route) (i c₂ : Nat)
    (hall : ∀ y ∈ l, g y = none ∨ g y = some (y, i, c₂))
    (hex : ∃ y ∈ l, g y ≠ none) :
    firstCreate g l = some (l, i, c₂) := by
  induction l with
  | nil =>
    obtain ⟨y, hy, -⟩ := hex
    exact absurd hy (List.not_mem_nil y)
  | cons x xs ih =>
    unfold firstCreate
    rcases hall x (by simp) with hx | hx
    · rw [hx]
      have hex' : ∃ y ∈ xs, g y ≠ none := by
        obtain ⟨y, hy, hne⟩ := hex
        rcases List.mem_cons.mp hy with hy | hy
        · rw [hy] at hne; exact absurd hx hne
        · exact ⟨y, hy, hne⟩
      have := ih (fun y hy => hall y (by simp [hy])) hex'
      rw [this]
    · rw [hx]

/-- Stage-result construction lemmas. -/
theorem tryLit_some_of (g : Route → Option (Route × Nat × Nat)) (r : Route)
    (cs' : List Route) (i c₂ : Nat) (h : firstCreate g r.children = some (cs', i, c₂)) :
    tryLit g r = some (r.setChildren cs', i, c₂) := by
  unfold tryLit
  rw [h]

theorem tryPar_some_of (g : Route → Option (Route × Nat × Nat)) (r : Route)
    (pc pc' : Route) (i c₂ : Nat) (hpc : r.paramChild = some pc)
    (h : g pc = some (pc', i, c₂)) :
    tryPar g r = some (r.setParamChild (some pc'), i, c₂) := by
  unfold tryPar
  rw [hpc]
  show (match g pc with
    | some (pc', i, c') => some (r.setParamChild (some pc'), i, c')
    | none => none) = _
  rw [h]

theorem tryWild_some_of (g : Route → Option (Route × Nat × Nat)) (r : Route)
    (wc wc' : Route) (i c₂ : Nat) (hwc : r.wildcardChild = some wc)
    (h : g wc = some (wc', i, c₂)) :
    tryWild g r = some (r.setWildcardChild (some wc'), i, c₂) := by
  unfold tryWild
  rw [hwc]
  show (match g wc with
    | some (wc', i, c') => some (r.setWildcardChild (some wc'), i, c')
    | none => none) = _
  rw [h]

/-! ## The sortedness invariant of registration-built trees -/

theorem SortedTree.children_pairwise {r : Route} (h : SortedTree r) :
    List.Pairwise (fun a b => strLtB a.pattern b.pattern = true) r.children := by
  cases h; assumption

theorem SortedTree.children_mem {r : Route} (h : SortedTree r) :
    ∀ x ∈ r.children, SortedTree x := by
  cases h; assumption

theorem SortedTree.param {r : Route} (h : SortedTree r) :
    ∀ x, r.paramChild = some x → SortedTree x := by
  cases h; assumption

theorem SortedTree.wild {r : Route} (h : SortedTree r) :
    ∀ x, r.wildcardChild = some x → SortedTree x := by
  cases h; assumption

theorem SortedTree.of_parts {r : Route}
    (h1 : List.Pairwise (fun a b => strLtB a.pattern b.pattern = true) r.children)
    (h2 : ∀ x ∈ r.children, SortedTree x)
    (h3 : ∀ x, r.paramChild = some x → SortedTree x)
    (h4 : ∀ x, r.wildcardChild = some x → SortedTree x) : SortedTree r := by
  cases r
  exact .mk _ _ _ _ h1 h2 h3 h4

theorem sortedTree_newRoute (k : Nat) : SortedTree (newRoute k) :=
  .mk _ _ _ _ (by simp) (by simp) (fun x hx => by cases hx) (fun x hx => by cases hx)

theorem sortedTree_applyData (f : RouteData → RouteData) {r : Route}
    (h : SortedTree r) : SortedTree (r.applyData f) := by
  cases h with
  | mk d cs pc wc h1 h2 h3 h4 => exact .mk _ _ _ _ h1 h2 h3 h4

theorem strLtB_ne {a b : String} (h : strLtB a b = true) : a ≠ b := by
  intro heq
  subst heq
  rw [strLtB_irrefl] at h
  exact absurd h (by simp)

theorem strLtB_of_not_lt_of_ne {a b : String} (h1 : strLtB b a = false)
    (h2 : a ≠ b) : strLtB a b = true := by
  cases hab : strLtB a b with
  | true => rfl
  | false => exact absurd (strLtB_antisymm hab h1) h2

/-- `sortRoutes` output is strictly sorted when the input patterns are
pairwise distinct. -/
theorem sortRoutes_pairwise (l : List Route)
    (hne : List.Pairwise (fun a b => a.pattern ≠ b.pattern) l) :
    List.Pairwise (fun a b => strLtB a.pattern b.pattern = true) (sortRoutes l) := by
  haveI htot : IsTotal Route (fun a b => strLtB b.pattern a.pattern = false) := by
    constructor
    intro a b
    by_cases hab : strLtB b.pattern a.pattern = false
    · exact Or.inl hab
    · right
      simp only [Bool.not_eq_false] at hab
      cases hba : strLtB a.pattern b.pattern with
      | false => rfl
      | true =>
        have := strLtB_trans hba hab
        rw [strLtB_irrefl] at this
        exact absurd this (by simp)
  haveI htr : IsTrans Route (fun a b => strLtB b.pattern a.pattern = false) := by
    constructor
    intro a b c hab hbc
    cases hca : strLtB c.pattern a.pattern with
    | false => rfl
    | true =>
      cases hbc2 : strLtB b.pattern c.pattern with
      | true =>
        have := strLtB_trans hbc2 hca
        rw [this] at hab
        exact absurd hab (by simp)
      | false =>
        have hcb : b.pattern = c.pattern := strLtB_antisymm hbc2 hbc
        rw [← hcb] at hca
        rw [hca] at hab
        exact absurd hab (by simp)
  have hsorted : List.Pairwise (fun a b => strLtB b.pattern a.pattern = false)
      (sortRoutes l) := List.sorted_insertionSort _ l
  have hperm : List.Perm (sortRoutes l) l := List.perm_insertionSort _ l
  have hne' : List.Pairwise (fun a b => a.pattern ≠ b.pattern) (sortRoutes l) :=
    (List.Perm.pairwise_iff (fun hab hc => hab hc.symm) hperm).mpr hne
  exact (hsorted.and hne').imp (fun hx => strLtB_of_not_lt_of_ne hx.1 hx.2)

/-- `create` preserves the sortedness invariant, for any node configuration
`f` that does not change the node's pattern (all the registration API's
configurations only touch handlers and middleware). -/
theorem create_sorted (f : RouteData → RouteData)
    (hf : ∀ d, (f d).pattern = d.pattern) :
    ∀ (parts : List String) (r : Route) (c : Nat) (out : Route × Nat × Nat),
      SortedTree r → create f parts r c = some out → SortedTree out.1 := by
  intro parts
  induction parts with
  | nil =>
    intro r c out _ h
    exact absurd h (by simp [create])
  | cons p rest ih =>
    intro r c out hst h
    cases rest with
    | nil =>
      by_cases hp : r.pattern = p
      · rw [create_single_of_eq f p r c hp] at h
        injection h with h
        have h1 : out.1 = r.applyData f := (congrArg Prod.fst h).symm
        rw [h1]
        exact sortedTree_applyData f hst
      · rw [create_cons_of_ne f [] r c hp] at h
        exact absurd h (by simp)
    | cons q rest' =>
      by_cases hp : r.pattern = p
      case neg =>
        rw [create_cons_of_ne f _ r c hp] at h
        exact absurd h (by simp)
      case pos =>
      rcases create_step_cases f p q rest' r c out hp h with
        htl | ⟨htl, htp⟩ | ⟨htl, htp, htw⟩ | ⟨htl, htp, htw, hcr⟩
      · -- literal child replaced in place
        obtain ⟨cs', hfc, hout⟩ := tryLit_some _ r _ htl
        obtain ⟨pre, x, post, x', hchil, hcs', hpre, hx⟩ :=
          firstCreate_some_decomp _ r.children _ hfc
        replace hcs' : cs' = pre ++ x' :: post := hcs'
        replace hx : create f (q :: rest') x c = some (x', out.2.1, out.2.2) := hx
        have hstx : SortedTree x := hst.children_mem x (by rw [hchil]; simp)
        have hstx' : SortedTree x' := ih x c (x', out.2.1, out.2.2) hstx hx
        have hxpat : x'.pattern = x.pattern :=
          create_pattern_of_some f hf (q :: rest') x c x' out.2.1 out.2.2 hx
        rw [hout]
        refine SortedTree.of_parts ?_ ?_ ?_ ?_
        · rw [setChildren_children, hcs']
          have hmap : (pre ++ x' :: post).map Route.pattern =
              (pre ++ x :: post).map Route.pattern := by
            simp [hxpat]
          have hpw := hst.children_pairwise
          rw [hchil] at hpw
          rw [← List.pairwise_map (R := fun a b => strLtB a b = true)] at hpw ⊢
          rw [hmap]
          exact hpw
        · rw [setChildren_children, hcs']
          intro y hy
          rcases List.mem_append.mp hy with hy | hy
          · exact hst.children_mem y (by rw [hchil]; exact List.mem_append.mpr (Or.inl hy))
          · rcases List.mem_cons.mp hy with hy | hy
            · rw [hy]; exact hstx'
            · exact hst.children_mem y
                (by rw [hchil]; exact List.mem_append.mpr (Or.inr (List.mem_cons.mpr (Or.inr hy))))
        · rw [setChildren_paramChild]; exact hst.param
        · rw [setChildren_wildcardChild]; exact hst.wild
      · -- parameter child replaced
        obtain ⟨pc, pc', hpc, hgo, hout⟩ := tryPar_some _ r _ htp
        have hstpc' : SortedTree pc' :=
          ih pc c (pc', out.2.1, out.2.2) (hst.param pc hpc) hgo
        rw [hout]
        refine SortedTree.of_parts ?_ ?_ ?_ ?_
        · rw [setParamChild_children]; exact hst.children_pairwise
        · rw [setParamChild_children]; exact hst.children_mem
        · rw [setParamChild_paramChild]
          intro x hx
          injection hx with hx
          rw [← hx]; exact hstpc'
        · rw [setParamChild_wildcardChild]; exact hst.wild
      · -- wildcard child replaced
        obtain ⟨wc, wc', hwc, hgo, hout⟩ := tryWild_some _ r _ htw
        have hstwc' : SortedTree wc' :=
          ih wc c (wc', out.2.1, out.2.2) (hst.wild wc hwc) hgo
        rw [hout]
        refine SortedTree.of_parts ?_ ?_ ?_ ?_
        · rw [setWildcardChild_children]; exact hst.children_pairwise
        · rw [setWildcardChild_children]; exact hst.children_mem
        · rw [setWildcardChild_paramChild]; exact hst.param
        · rw [setWildcardChild_wildcardChild]
          intro x hx
          injection hx with hx
          rw [← hx]; exact hstwc'
      · rcases hcr with ⟨hcolon, n', hgo, hout⟩ | ⟨hcolon, hstar, hout⟩ |
          ⟨hcolon, hstar, n', hgo, hout⟩
        · -- fresh parameter node
          have hstn : SortedTree (freshParamNode c r.fullPath q) :=
            .mk _ _ _ _ (by simp) (by simp) (fun x hx => by cases hx)
              (fun x hx => by cases hx)
          have hstn' : SortedTree n' := ih _ (c + 1) (n', out.2.1, out.2.2) hstn hgo
          rw [hout]
          refine SortedTree.of_parts ?_ ?_ ?_ ?_
          · rw [setParamChild_children]; exact hst.children_pairwise
          · rw [setParamChild_children]; exact hst.children_mem
          · rw [setParamChild_paramChild]
            intro x hx
            injection hx with hx
            rw [← hx]; exact hstn'
          · rw [setParamChild_wildcardChild]; exact hst.wild
        · -- fresh wildcard node
          have hout1 : out.1 = r.setWildcardChild
              (some ((freshWildNode c r.fullPath q).applyData f)) :=
            congrArg Prod.fst hout
          have hstn : SortedTree ((freshWildNode c r.fullPath q).applyData f) :=
            sortedTree_applyData f (.mk _ _ _ _ (by simp) (by simp)
              (fun x hx => by cases hx) (fun x hx => by cases hx))
          rw [hout1]
          refine SortedTree.of_parts ?_ ?_ ?_ ?_
          · rw [setWildcardChild_children]; exact hst.children_pairwise
          · rw [setWildcardChild_children]; exact hst.children_mem
          · rw [setWildcardChild_paramChild]; exact hst.param
          · rw [setWildcardChild_wildcardChild]
            intro x hx
            injection hx with hx
            rw [← hx]; exact hstn
        · -- fresh literal node, children re-sorted
          have hstn : SortedTree (freshLitNode c r.fullPath q) :=
            .mk _ _ _ _ (by simp) (by simp) (fun x hx => by cases hx)
              (fun x hx => by cases hx)
          have hstn' : SortedTree n' := ih _ (c + 1) (n', out.2.1, out.2.2) hstn hgo
          have hnpat : n'.pattern = q := by
            rw [create_pattern_of_some f hf (q :: rest') _ (c + 1) n'
              out.2.1 out.2.2 hgo]
            rfl
          have hchfail : ∀ y ∈ r.children, y.pattern ≠ q := fun y hy =>
            (create_none_iff_ne f q rest' y c).mp
              ((firstCreate_none_iff _ r.children).mp ((tryLit_none_iff _ r).mp htl) y hy)
          rw [hout]
          refine SortedTree.of_parts ?_ ?_ ?_ ?_
          · rw [setChildren_children]
            apply sortRoutes_pairwise
            rw [List.pairwise_append]
            refine ⟨hst.children_pairwise.imp (fun hab => strLtB_ne hab), ?_, ?_⟩
            · simp
            · intro a ha b hb
              rcases List.mem_singleton.mp hb with hb
              rw [hb, hnpat]
              exact hchfail a ha
          · rw [setChildren_children]
            intro y hy
            have hperm : List.Perm (sortRoutes (r.children ++ [n']))
                (r.children ++ [n']) := List.perm_insertionSort _ _
            rcases List.mem_append.mp (hperm.mem_iff.mp hy) with hy | hy
            · exact hst.children_mem y hy
            · rcases List.mem_singleton.mp hy with hy
              rw [hy]; exact hstn'
          · rw [setChildren_paramChild]; exact hst.param
          · rw [setChildren_wildcardChild]; exact hst.wild

/-- **C1.** At every step of the lookup descent, on a node whose literal
children are strictly sorted: a literal child whose pattern equals the next
segment is chosen; failing that, the parameter child; and failing that, the
wildcard child — so literal > parameter > wildcard.  The last three
conjuncts show every routing tree reachable through registration satisfies
the sortedness hypothesis at every node — a fresh root is sorted, `create`
preserves sortedness for every pattern-preserving node configuration, and
the invariant yields the hypothesis — so the precedence holds for every
registration-built tree, independent of the order in which the routes were
registered. -/
theorem child_selection_precedence (r : Route) (seg : String)
    (hs : List.Pairwise (fun a b => strLtB a.pattern b.pattern = true) r.children) :
    ((∀ c, c ∈ r.children → c.pattern = seg → selectChild r seg = some c)
    ∧ ((∀ c ∈ r.children, c.pattern ≠ seg) →
        ∀ pc, r.paramChild = some pc → selectChild r seg = some pc)
    ∧ ((∀ c ∈ r.children, c.pattern ≠ seg) → r.paramChild = none →
        selectChild r seg = r.wildcardChild)
    ∧ (∀ k, SortedTree (newRoute k))
    ∧ (∀ (f : RouteData → RouteData), (∀ d, (f d).pattern = d.pattern) →
        ∀ (parts : List String) (r₀ : Route) (c : Nat) (out : Route × Nat × Nat),
          SortedTree r₀ → create f parts r₀ c = some out → SortedTree out.1)
    ∧ (∀ r₀ : Route, SortedTree r₀ →
        List.Pairwise (fun a b => strLtB a.pattern b.pattern = true) r₀.children)) := by
  refine ⟨?_, ?_, ?_, sortedTree_newRoute,
    fun f hf parts r₀ c out h1 h2 => create_sorted f hf parts r₀ c out h1 h2,
    fun r₀ h => h.children_pairwise⟩
  · intro c hc he
    unfold selectChild
    rw [childSearch_of_mem r.children seg hs c hc he]
  · intro hnone pc hpc
    unfold selectChild
    rw [childSearch_of_not_mem r.children seg hnone, hpc]
  · intro hnone hpc
    unfold selectChild
    rw [childSearch_of_not_mem r.children seg hnone, hpc]

theorem child_selection_precedence_witness :
    selectChild rC1 "jim" = some rC1lit
    ∧ selectChild rC1 "john" = some rC1par
    ∧ selectChild (rC1.setParamChild none) "john" = some rC1wild :=
  ⟨(child_selection_precedence rC1 "jim"
      (by simp [rC1, Route.children])).1 rC1lit
      (by simp [rC1, Route.children]) (by decide),
   (child_selection_precedence rC1 "john"
      (by simp [rC1, Route.children])).2.1 (by decide) rC1par rfl,
   ((child_selection_precedence (rC1.setParamChild none) "john"
      (by simp [rC1, Route.children, Route.setParamChild])).2.2.1
      (by decide) rfl).trans rfl⟩

/-! ## Claim C3: parameter-slot identity -/

/-- **C3 (amended).** Registering a one-segment extension whose segment is a
parameter: if the node already has a parameter child with a *different*
pattern (different name), `create` builds a fresh node (id = the fresh
counter `c`), installs it as the parameter child — replacing and discarding
the previous parameter subtree — and returns the fresh node, with the
counter advanced.  Only when the existing parameter child has the *same*
pattern does `create` return the existing node with the tree unchanged and
no allocation. -/
theorem param_rename_replaces_slot (p seg : String) (r : Route) (c : Nat)
    (hp : r.pattern = p)
    (hcolon : startsWithColon seg = true)
    (hch : ∀ ch ∈ r.children, ch.pattern ≠ seg)
    (hwc : ∀ w, r.wildcardChild = some w → w.pattern ≠ seg) :
    (∀ pc, r.paramChild = some pc → pc.pattern ≠ seg →
      create (fun d => d) [p, seg] r c =
        some (r.setParamChild (some (freshParamNode c r.fullPath seg)), c, c + 1))
    ∧ (∀ pc, r.paramChild = some pc → pc.pattern = seg →
      create (fun d => d) [p, seg] r c = some (r, pc.id, c)) := by
  have hlitnone : tryLit (fun child => create (fun d => d) [seg] child c) r = none :=
    (tryLit_none_iff _ r).mpr ((firstCreate_none_iff _ r.children).mpr
      (fun ch hmem => create_cons_of_ne _ [] ch c (hch ch hmem)))
  constructor
  · intro pc hpc hne
    have hparnone : tryPar (fun child => create (fun d => d) [seg] child c) r = none :=
      (tryPar_none_iff _ r).mpr (fun pc₂ hpc₂ => by
        rw [hpc₂] at hpc
        injection hpc with hpc
        exact create_cons_of_ne _ [] pc₂ c (hpc ▸ hne))
    have hwildnone : tryWild (fun child => create (fun d => d) [seg] child c) r = none :=
      (tryWild_none_iff _ r).mpr
        (fun w hw => create_cons_of_ne _ [] w c (hwc w hw))
    rw [create_cons_cons, if_pos hp]
    have hfresh : create (fun d => d) [seg] (freshParamNode c r.fullPath seg) (c + 1) =
        some ((freshParamNode c r.fullPath seg).applyData (fun d => d),
          (freshParamNode c r.fullPath seg).id, c + 1) :=
      create_single_of_eq (fun d => d) seg (freshParamNode c r.fullPath seg) (c + 1) rfl
    rw [applyData_id] at hfresh
    simp only [hlitnone, hparnone, hwildnone, if_pos hcolon, hfresh, freshParamNode_id]
  · intro pc hpc hsame
    have hparres : tryPar (fun child => create (fun d => d) [seg] child c) r =
        some (r.setParamChild (some pc), pc.id, c) := by
      unfold tryPar
      rw [hpc]
      show (match create (fun d => d) [seg] pc c with
        | some (pc', i, c') => some (r.setParamChild (some pc'), i, c')
        | none => none) = some (r.setParamChild (some pc), pc.id, c)
      rw [create_single_of_eq (fun d => d) seg pc c hsame, applyData_id]
    rw [create_cons_cons, if_pos hp]
    simp only [hlitnone, hparres]
    rw [setParamChild_self r (some pc) hpc]

theorem param_rename_replaces_slot_witness :
    create (fun d => d) ["", ":name"] rC3 9 =
      some (rC3.setParamChild (some (freshParamNode 9 rC3.fullPath ":name")), 9, 10)
    ∧ create (fun d => d) ["", ":id"] rC3 9 = some (rC3, rC3old.id, 9) :=
  ⟨(param_rename_replaces_slot "" ":name" rC3 9 rfl (by decide) (by decide)
      (fun w hw => Option.noConfusion hw)).1 rC3old rfl (by decide),
   (param_rename_replaces_slot "" ":id" rC3 9 rfl (by decide) (by decide)
      (fun w hw => Option.noConfusion hw)).2 rC3old rfl (by decide)⟩

/-! ## Claim C7: idempotence of registration -/

theorem noInnerStar_tail {p q : String} {rest : List String}
    (h : noInnerStar (p :: q :: rest) = true) :
    noInnerStar (q :: rest) = true ∧ (rest ≠ [] → q ≠ "*") := by
  cases rest with
  | nil => exact ⟨rfl, fun hne => absurd rfl hne⟩
  | cons y rest' =>
    unfold noInnerStar at h
    rw [Bool.and_eq_true] at h
    refine ⟨h.2, fun _ hq => ?_⟩
    have := h.1
    rw [hq] at this
    simp at this

theorem create_idem :
    ∀ (parts : List String) (r : Route) (c : Nat) (r' : Route) (i c' : Nat),
      noInnerStar parts = true →
      create (fun d => d) parts r c = some (r', i, c') →
      create (fun d => d) parts r' c' = some (r', i, c') := by
  intro parts
  induction parts with
  | nil =>
    intro r c r' i c' _ h
    exact absurd h (by simp [create])
  | cons p rest ih =>
    intro r c r' i c' hns h
    cases rest with
    | nil =>
      by_cases hp : r.pattern = p
      · rw [create_single_of_eq _ p r c hp, applyData_id] at h
        injection h with h
        simp only [Prod.mk.injEq] at h
        obtain ⟨h1, h2, h3⟩ := h
        subst h1; subst h2; subst h3
        rw [create_single_of_eq _ p r c hp, applyData_id]
      · rw [create_cons_of_ne _ [] r c hp] at h
        exact absurd h (by simp)
    | cons q rest' =>
      by_cases hp : r.pattern = p
      case neg =>
        rw [create_cons_of_ne _ _ r c hp] at h
        exact absurd h (by simp)
      case pos =>
      obtain ⟨hns', hstarcond⟩ := noInnerStar_tail hns
      have hp' : r'.pattern = p := by
        rw [create_pattern_of_some (fun d => d) (fun d => rfl) (p :: q :: rest')
          r c r' i c' h]
        exact hp
      have htrans : ∀ (y : Route) (cc cc' : Nat),
          create (fun d => d) (q :: rest') y cc = none →
          create (fun d => d) (q :: rest') y cc' = none := fun y cc cc' hy =>
        create_cons_of_ne _ _ y cc' ((create_none_iff_ne _ q rest' y cc).mp hy)
      rcases create_step_cases (fun d => d) p q rest' r c (r', i, c') hp h with
        htl | ⟨htl, htp⟩ | ⟨htl, htp, htw⟩ | ⟨htl, htp, htw, hcr⟩
      · -- matched via a literal child, replaced in place
        obtain ⟨cs', hfc, hout⟩ := tryLit_some _ r _ htl
        replace hout : r' = r.setChildren cs' := hout
        obtain ⟨pre, x, post, x', hchil, hcs', hpre, hx⟩ :=
          firstCreate_some_decomp _ r.children _ hfc
        replace hcs' : cs' = pre ++ x' :: post := hcs'
        replace hx : create (fun d => d) (q :: rest') x c = some (x', i, c') := hx
        have hx2 := ih x c x' i c' hns' hx
        have hpre' : ∀ y ∈ pre,
            (fun child => create (fun d => d) (q :: rest') child c') y = none :=
          fun y hy => htrans y c c' (hpre y hy)
        have hchil' : r'.children = pre ++ x' :: post := by
          rw [hout, setChildren_children, hcs']
        have hfc' : firstCreate
            (fun child => create (fun d => d) (q :: rest') child c')
            r'.children = some (r'.children, i, c') := by
          rw [hchil']
          exact firstCreate_reconstruct _ pre x' post i c' hpre' hx2
        have htl' : tryLit
            (fun child => create (fun d => d) (q :: rest') child c') r' =
            some (r', i, c') := by
          have := tryLit_some_of _ r' r'.children i c' hfc'
          rwa [setChildren_self r' r'.children rfl] at this
        rw [create_step_eq _ p q rest' r' c' hp']
        simp only [htl']
      · -- matched via the parameter child
        obtain ⟨pc, pc', hpc, hgo, hout⟩ := tryPar_some _ r _ htp
        replace hout : r' = r.setParamChild (some pc') := hout
        replace hgo : create (fun d => d) (q :: rest') pc c = some (pc', i, c') := hgo
        have hgo2 := ih pc c pc' i c' hns' hgo
        have hchil' : r'.children = r.children := by
          rw [hout, setParamChild_children]
        have htl' : tryLit
            (fun child => create (fun d => d) (q :: rest') child c') r' = none := by
          refine (tryLit_none_iff _ r').mpr ?_
          rw [hchil']
          exact (firstCreate_none_iff _ r.children).mpr
            (fun y hy => htrans y c c'
              ((firstCreate_none_iff _ r.children).mp ((tryLit_none_iff _ r).mp htl) y hy))
        have hpc' : r'.paramChild = some pc' := by
          rw [hout, setParamChild_paramChild]
        have htp' : tryPar
            (fun child => create (fun d => d) (q :: rest') child c') r' =
            some (r', i, c') := by
          have := tryPar_some_of (fun child => create (fun d => d) (q :: rest') child c') r' pc' pc' i c' hpc' hgo2
          rwa [setParamChild_self r' (some pc') hpc'] at this
        rw [create_step_eq _ p q rest' r' c' hp']
        simp only [htl', htp']
      · -- matched via the wildcard child
        obtain ⟨wc, wc', hwc, hgo, hout⟩ := tryWild_some _ r _ htw
        replace hout : r' = r.setWildcardChild (some wc') := hout
        replace hgo : create (fun d => d) (q :: rest') wc c = some (wc', i, c') := hgo
        have hgo2 := ih wc c wc' i c' hns' hgo
        have hchil' : r'.children = r.children := by
          rw [hout, setWildcardChild_children]
        have hpcsame : r'.paramChild = r.paramChild := by
          rw [hout, setWildcardChild_paramChild]
        have htl' : tryLit
            (fun child => create (fun d => d) (q :: rest') child c') r' = none := by
          refine (tryLit_none_iff _ r').mpr ?_
          rw [hchil']
          exact (firstCreate_none_iff _ r.children).mpr
            (fun y hy => htrans y c c'
              ((firstCreate_none_iff _ r.children).mp ((tryLit_none_iff _ r).mp htl) y hy))
        have htp' : tryPar
            (fun child => create (fun d => d) (q :: rest') child c') r' = none := by
          refine (tryPar_none_iff _ r').mpr ?_
          intro pc₂ hpc₂
          rw [hpcsame] at hpc₂
          exact htrans pc₂ c c' ((tryPar_none_iff _ r).mp htp pc₂ hpc₂)
        have hwc' : r'.wildcardChild = some wc' := by
          rw [hout, setWildcardChild_wildcardChild]
        have htw' : tryWild
            (fun child => create (fun d => d) (q :: rest') child c') r' =
            some (r', i, c') := by
          have := tryWild_some_of (fun child => create (fun d => d) (q :: rest') child c') r' wc' wc' i c' hwc' hgo2
          rwa [setWildcardChild_self r' (some wc') hwc'] at this
        rw [create_step_eq _ p q rest' r' c' hp']
        simp only [htl', htp', htw']
      · -- creation branch
        rcases hcr with ⟨hcolon, n', hgo, hout⟩ | ⟨hcolon, hstar, hout⟩ |
          ⟨hcolon, hstar, n', hgo, hout⟩
        · -- fresh parameter child created
          replace hout : r' = r.setParamChild (some n') := hout
          replace hgo : create (fun d => d) (q :: rest')
            (freshParamNode c r.fullPath q) (c + 1) = some (n', i, c') := hgo
          have hgo2 := ih (freshParamNode c r.fullPath q) (c + 1) n' i c' hns' hgo
          have hchil' : r'.children = r.children := by
            rw [hout, setParamChild_children]
          have htl' : tryLit
              (fun child => create (fun d => d) (q :: rest') child c') r' = none := by
            refine (tryLit_none_iff _ r').mpr ?_
            rw [hchil']
            exact (firstCreate_none_iff _ r.children).mpr
              (fun y hy => htrans y c c'
                ((firstCreate_none_iff _ r.children).mp ((tryLit_none_iff _ r).mp htl) y hy))
          have hpc' : r'.paramChild = some n' := by
            rw [hout, setParamChild_paramChild]
          have htp' : tryPar
              (fun child => create (fun d => d) (q :: rest') child c') r' =
              some (r', i, c') := by
            have := tryPar_some_of (fun child => create (fun d => d) (q :: rest') child c') r' n' n' i c' hpc' hgo2
            rwa [setParamChild_self r' (some n') hpc'] at this
          rw [create_step_eq _ p q rest' r' c' hp']
          simp only [htl', htp']
        · -- fresh wildcard child created ("go no deeper")
          have hrest' : rest' = [] := by
            by_contra hne
            exact absurd hstar (hstarcond hne)
          subst hrest'
          rw [applyData_id] at hout
          have hout1 : r' = r.setWildcardChild (some (freshWildNode c r.fullPath q)) :=
            congrArg Prod.fst hout
          have hout2 : i = c := congrArg (fun x => x.2.1) hout
          have hout3 : c' = c + 1 := congrArg (fun x => x.2.2) hout
          have hchil' : r'.children = r.children := by
            rw [hout1, setWildcardChild_children]
          have hpcsame : r'.paramChild = r.paramChild := by
            rw [hout1, setWildcardChild_paramChild]
          have htl' : tryLit
              (fun child => create (fun d => d) [q] child c') r' = none := by
            refine (tryLit_none_iff _ r').mpr ?_
            rw [hchil']
            exact (firstCreate_none_iff _ r.children).mpr
              (fun y hy => htrans y c c'
                ((firstCreate_none_iff _ r.children).mp ((tryLit_none_iff _ r).mp htl) y hy))
          have htp' : tryPar
              (fun child => create (fun d => d) [q] child c') r' = none := by
            refine (tryPar_none_iff _ r').mpr ?_
            intro pc₂ hpc₂
            rw [hpcsame] at hpc₂
            exact htrans pc₂ c c' ((tryPar_none_iff _ r).mp htp pc₂ hpc₂)
          have hwc' : r'.wildcardChild = some (freshWildNode c r.fullPath q) := by
            rw [hout1, setWildcardChild_wildcardChild]
          have hfreshpat : (freshWildNode c r.fullPath q).pattern = q := rfl
          have hgo2 : create (fun d => d) [q] (freshWildNode c r.fullPath q) c' =
              some (freshWildNode c r.fullPath q, c, c') := by
            rw [create_single_of_eq _ q (freshWildNode c r.fullPath q) c' hfreshpat,
              applyData_id]
            rfl
          have htw' : tryWild
              (fun child => create (fun d => d) [q] child c') r' =
              some (r', c, c') := by
            have := tryWild_some_of (fun child => create (fun d => d) [q] child c')
              r' (freshWildNode c r.fullPath q)
              (freshWildNode c r.fullPath q) c c' hwc' hgo2
            rwa [setWildcardChild_self r' (some (freshWildNode c r.fullPath q)) hwc'] at this
          rw [create_step_eq _ p q [] r' c' hp']
          simp only [htl', htp', htw', hout2]
        · -- fresh literal child created and the children re-sorted
          replace hout : r' = r.setChildren (sortRoutes (r.children ++ [n'])) := hout
          replace hgo : create (fun d => d) (q :: rest')
            (freshLitNode c r.fullPath q) (c + 1) = some (n', i, c') := hgo
          have hgo2 := ih (freshLitNode c r.fullPath q) (c + 1) n' i c' hns' hgo
          have hnpat : n'.pattern = q := by
            rw [create_pattern_of_some (fun d => d) (fun d => rfl) (q :: rest')
              (freshLitNode c r.fullPath q) (c + 1) n' i c' hgo]
            rfl
          have hchil' : r'.children = sortRoutes (r.children ++ [n']) := by
            rw [hout, setChildren_children]
          have hperm : List.Perm (sortRoutes (r.children ++ [n'])) (r.children ++ [n']) :=
            List.perm_insertionSort _ _
          have hall : ∀ y ∈ r'.children,
              (fun child => create (fun d => d) (q :: rest') child c') y = none ∨
              (fun child => create (fun d => d) (q :: rest') child c') y =
                some (y, i, c') := by
            intro y hy
            rw [hchil'] at hy
            rcases List.mem_append.mp (hperm.mem_iff.mp hy) with hy | hy
            · exact Or.inl (htrans y c c'
                ((firstCreate_none_iff _ r.children).mp ((tryLit_none_iff _ r).mp htl) y hy))
            · rcases List.mem_singleton.mp hy with hy
              rw [hy]
              exact Or.inr hgo2
          have hex : ∃ y ∈ r'.children,
              (fun child => create (fun d => d) (q :: rest') child c') y ≠ none := by
            refine ⟨n', ?_, ?_⟩
            · rw [hchil']
              exact hperm.mem_iff.mpr (List.mem_append.mpr (Or.inr (by simp)))
            · show create (fun d => d) (q :: rest') n' c' ≠ none
              rw [hgo2]
              simp
          have hfc' := firstCreate_of_unique _ r'.children i c' hall hex
          have htl' : tryLit
              (fun child => create (fun d => d) (q :: rest') child c') r' =
              some (r', i, c') := by
            have := tryLit_some_of _ r' r'.children i c' hfc'
            rwa [setChildren_self r' r'.children rfl] at this
          rw [create_step_eq _ p q rest' r' c' hp']
          simp only [htl']

theorem string_eq_of_data (a b : String) (h : a.data = b.data) : a = b := by
  cases a; cases b; exact congrArg String.mk h

theorem trimRightSlashes_append_slash (a : String) :
    trimRightSlashes (a ++ "/") = trimRightSlashes a := by
  unfold trimRightSlashes
  have hdata : (a ++ "/").data = a.data ++ ['/'] := String.data_append a "/"
  rw [hdata, List.reverse_append]
  rfl

theorem routeParts_leading_slash (rp s : String) (hs : s ≠ "")
    (h : startsWithSlash s = false) :
    routeParts rp ("/" ++ s) = routeParts rp s := by
  have hdata : ("/" ++ s).data = '/' :: s.data := String.data_append "/" s
  cases hsd : s.data with
  | nil => exact absurd (string_eq_of_data s "" hsd) hs
  | cons c₀ cs =>
    unfold startsWithSlash at h
    rw [hsd] at h
    simp only [decide_eq_false_iff_not] at h
    unfold routeParts
    rw [hdata, hsd]
    simp [h]

theorem routeParts_trailing_slash (rp s : String) (hs : s ≠ "")
    (h : trimRightSlashes (if startsWithSlash s = true then s else "/" ++ s) ≠ "") :
    routeParts rp (s ++ "/") = routeParts rp s := by
  have hdata : (s ++ "/").data = s.data ++ ['/'] := String.data_append s "/"
  cases hsd : s.data with
  | nil => exact absurd (string_eq_of_data s "" hsd) hs
  | cons c₀ cs =>
    have hsw : startsWithSlash s = decide (c₀ = '/') := by
      unfold startsWithSlash
      rw [hsd]
    rw [hsw] at h
    unfold routeParts
    rw [hdata, hsd]
    show (let p1 := if c₀ = '/' then s ++ "/" else "/" ++ (s ++ "/")
      let p2 := if p1 = "/" then p1 else trimRightSlashes p1
      let p3 := if rp = "" then p2 else rp ++ p2
      let parts := splitSlash p3
      some (if p3 = "/" then parts.drop 1 else parts)) =
      (let p1 := if c₀ = '/' then s else "/" ++ s
      let p2 := if p1 = "/" then p1 else trimRightSlashes p1
      let p3 := if rp = "" then p2 else rp ++ p2
      let parts := splitSlash p3
      some (if p3 = "/" then parts.drop 1 else parts))
    have hp1 : (if c₀ = '/' then s ++ "/" else "/" ++ (s ++ "/")) =
        (if c₀ = '/' then s else "/" ++ s) ++ "/" := by
      by_cases hc : c₀ = '/'
      · rw [if_pos hc, if_pos hc]
      · rw [if_neg hc, if_neg hc, String.append_assoc]
    set p1s := if c₀ = '/' then s else "/" ++ s with hp1s
    have hp1ne : p1s.data ≠ [] := by
      rw [hp1s]
      by_cases hc : c₀ = '/'
      · rw [if_pos hc, hsd]; simp
      · rw [if_neg hc, String.data_append]
        rw [hsd]
        simp
    have hne2 : p1s ++ "/" ≠ "/" := by
      intro hcontra
      have hcd := congrArg String.data hcontra
      rw [String.data_append] at hcd
      apply hp1ne
      cases hd : p1s.data with
      | nil => rfl
      | cons a as =>
        rw [hd] at hcd
        exact absurd hcd (by simp)
    have hp1snotroot : p1s ≠ "/" := by
      intro hcontra
      apply h
      have hcond : (if decide (c₀ = '/') = true then s else "/" ++ s) = p1s := by
        rw [hp1s]
        by_cases hc : c₀ = '/' <;> simp [hc]
      rw [hcond, hcontra]
      rfl
    rw [hp1]
    simp only [if_neg hne2, if_neg hp1snotroot, trimRightSlashes_append_slash]

/-- **C7 (amended).** Registration is idempotent for every non-empty pattern
without a non-final wildcard segment: if registering `P` at a node returns
node id `n` with tree `r₁` and counter `c₁`, registering `P` again on `r₁`
returns the very same id, leaves the tree unchanged, and allocates nothing —
and likewise for any pattern that normalizes to the same segments, in
particular the leading-slash and trailing-slash variants of `P` (last two
conjuncts: normalization identifies them).  For a pattern with a non-final
wildcard segment the two calls return different nodes (see the
counterexample), and an empty pattern panics in `Route`. -/
theorem route_idempotent (P : String) (r : Route) (c : Nat) (r₁ : Route)
    (n c₁ : Nat) (parts : List String)
    (hparts : routeParts r.pattern P = some parts)
    (hns : noInnerStar parts = true)
    (h : routeOn (fun d => d) r P c = some (r₁, n, c₁)) :
    (routeOn (fun d => d) r₁ P c₁ = some (r₁, n, c₁))
    ∧ (∀ Q, routeParts r.pattern Q = routeParts r.pattern P →
        routeOn (fun d => d) r₁ Q c₁ = some (r₁, n, c₁))
    ∧ (∀ s, s ≠ "" → startsWithSlash s = false →
        routeParts r.pattern ("/" ++ s) = routeParts r.pattern s)
    ∧ (∀ s, s ≠ "" →
        trimRightSlashes (if startsWithSlash s = true then s else "/" ++ s) ≠ "" →
        routeParts r.pattern (s ++ "/") = routeParts r.pattern s) := by
  unfold routeOn at h
  rw [hparts] at h
  replace h : create (fun d => d) parts r c = some (r₁, n, c₁) := h
  have hpat : r₁.pattern = r.pattern :=
    create_pattern_of_some (fun d => d) (fun d => rfl) parts r c r₁ n c₁ h
  have hidem := create_idem parts r c r₁ n c₁ hns h
  refine ⟨?_, ?_, fun s hs hsw => routeParts_leading_slash r.pattern s hs hsw,
    fun s hs htr => routeParts_trailing_slash r.pattern s hs htr⟩
  · unfold routeOn
    rw [hpat, hparts]
    exact hidem
  · intro Q hQ
    unfold routeOn
    rw [hpat, hQ, hparts]
    exact hidem

theorem route_idempotent_witness :
    routeOn (fun d => d) tC7 "/a/b" 3 = some (tC7, 2, 3)
    ∧ routeOn (fun d => d) tC7 "a/b/" 3 = some (tC7, 2, 3) :=
  ⟨(route_idempotent "/a/b" (newRoute 0) 1 tC7 2 3 ["", "a", "b"]
      rfl (by decide) rfl).1,
   (route_idempotent "/a/b" (newRoute 0) 1 tC7 2 3 ["", "a", "b"]
      rfl (by decide) rfl).2.1 "a/b/" rfl⟩

/-- **C7 counterexample.** For the pattern `/a/*/b` (a wildcard with a
segment below it), the first registration creates the wildcard node and
returns it (id 2, "go no deeper"), while the second registration descends
*through* the existing wildcard node, creates `b` beneath it and returns
that new node (id 3) — not the same node, and the tree changed. -/
theorem route_idempotent_false_for_inner_wildcard :
    (routeOn (fun d => d) (newRoute 0) "/a/*/b" 1).map (fun x => (x.2.1, x.2.2))
      = some (2, 3)
    ∧ ((routeOn (fun d => d) (newRoute 0) "/a/*/b" 1).bind (fun x =>
        routeOn (fun d => d) x.1 "/a/*/b" x.2.2)).map (fun x => (x.2.1, x.2.2))
      = some (3, 4)
    ∧ (2 : Nat) ≠ 3 := by
  refine ⟨by decide, by decide, by decide⟩

/-- **C3 counterexample.** Register `/users/:id` (returned node id 2, next
fresh id 3), then `/users/:name`: the second registration returns a *new*
node (id 3) and allocates (counter 3 → 4) instead of returning the existing
parameter child (id 2); a GET handler registered on `/users/:id` beforehand
is discarded — after the second registration, looking up `/users/bob`
finds no handler at all and binds the parameter under the new name. -/
theorem param_rename_same_slot_false :
    (routeOn (fun d => d) (newRoute 0) "/users/:id" 1).map (fun x => (x.2.1, x.2.2))
      = some (2, 3)
    ∧ ((routeOn (fun d => d) (newRoute 0) "/users/:id" 1).bind (fun x =>
        routeOn (fun d => d) x.1 "/users/:name" x.2.2)).map (fun x => (x.2.1, x.2.2))
      = some (3, 4)
    ∧ (treeC3.bind (fun t => (execute t methodGet "/users/bob").map (fun ex =>
        (ex.handler, paramsLookup ex.params "name", paramsLookup ex.params "id"))))
      = some (none, some "bob", none) := by
  refine ⟨by decide, by decide, by decide⟩

end Powermux
